import Mathlib

/-!
Verification of the @helios-starling/utils runtime kernel (JavaScript)
against its natural-language specification.

The JavaScript sources are shallowly embedded: JS runtime values that flow
through the validators and formatters are modelled by the inductive `JsVal`;
each JS function of interest becomes a Lean function over `JsVal` (or over
plain numbers/strings where the source only manipulates those).  JS numbers
appearing in protocol envelopes are modelled as integers (every number the
claims exercise is an integer); backoff-delay arithmetic is modelled over ℚ.
A JS function that can throw is modelled in `Except String`.
-/

/-- Model of a JavaScript runtime value as it flows through the validators:
JSON values plus `undefined`.  Numbers are modelled as integers. -/
inductive JsVal where
  | null
  | undef
  | bool (b : Bool)
  | num (n : Int)
  | str (s : String)
  | arr (elems : List JsVal)
  | obj (fields : List (String × JsVal))

namespace JsVal

/-- First binding of a key in an object, `none` when the key is absent or the
value is not an object.  Models JS property lookup `message.key` (which yields
`undefined` both for a missing key and for a key set to `undefined`; the two
are distinguished by `hasField`, the model of `'key' in message`). -/
def getField : JsVal → String → Option JsVal
  | .obj fields, k => go fields k
  | _, _ => none
where go : List (String × JsVal) → String → Option JsVal
  | [], _ => none
  | (k', v) :: rest, k => if k' = k then some v else go rest k

/-- Models the JS `'key' in message` test (true also when the value stored
under the key is `undefined`). -/
def hasField (v : JsVal) (k : String) : Bool :=
  (v.getField k).isSome

/-- Property read `message.key`: `undefined` when absent. -/
def fieldOr (v : JsVal) (k : String) : JsVal :=
  (v.getField k).getD (.undef)

/-- Models JS `typeof v === 'object'` (true for objects, arrays and `null`). -/
def typeofIsObject : JsVal → Bool
  | .null | .obj _ | .arr _ => true
  | _ => false

/-- Models JS `Array.isArray`. -/
def isArray : JsVal → Bool
  | .arr _ => true
  | _ => false

/-- Models JS `typeof v === 'string'`. -/
def typeofIsString : JsVal → Bool
  | .str _ => true
  | _ => false

/-- Models JS `typeof v === 'number'`. -/
def typeofIsNumber : JsVal → Bool
  | .num _ => true
  | _ => false

/-- Models JS `typeof v === 'boolean'`. -/
def typeofIsBoolean : JsVal → Bool
  | .bool _ => true
  | _ => false

/-- Models JS truthiness (`!!v`). -/
def truthy : JsVal → Bool
  | .null | .undef | .bool false | .num 0 | .str "" => false
  | .bool true => true
  | .num _ | .str _ | .arr _ | .obj _ => true

/-- Strict string equality `v === s` for a string literal `s`. -/
def isStr (v : JsVal) (s : String) : Bool :=
  match v with
  | .str s' => s' = s
  | _ => false

/-- Strict equality `v === null`. -/
def isNull : JsVal → Bool
  | .null => true
  | _ => false

/-- Strict equality `v === true`. -/
def isTrue : JsVal → Bool
  | .bool true => true
  | _ => false

/-- Adds (or overwrites) a field, appending at the end when the key is new;
models JS property assignment on an object. -/
def setField : JsVal → String → JsVal → JsVal
  | .obj fields, k, v => .obj (go fields k v)
  | other, _, _ => other
where go : List (String × JsVal) → String → JsVal → List (String × JsVal)
  | [], k, v => [(k, v)]
  | (k', v') :: rest, k, v =>
      if k' = k then (k, v) :: rest else (k', v') :: go rest k v

end JsVal

/-! ### String/character predicates backing the validation regexes

The source validates with JS `RegExp`s (`Patterns` in
`src/constants/protocol.js`).  Each anchored pattern is embedded as an
executable predicate over the character list of the candidate string. -/

/-- `\d` of the JS regexes: the ASCII digits. -/
def isDigitChar (c : Char) : Bool := '0' ≤ c && c ≤ '9'

/-- `[a-zA-Z]` of the JS regexes. -/
def isAsciiLetter (c : Char) : Bool :=
  ('a' ≤ c && c ≤ 'z') || ('A' ≤ c && c ≤ 'Z')

/-- `[a-zA-Z0-9_]` of the JS regexes. -/
def isWordChar (c : Char) : Bool :=
  isAsciiLetter c || isDigitChar c || c = '_'

/-- `[0-9a-fA-F]`, used by the UUID pattern (flag `i`). -/
def isHexChar (c : Char) : Bool :=
  isDigitChar c || ('a' ≤ c && c ≤ 'f') || ('A' ≤ c && c ≤ 'F')

/-- A segment matching `[a-zA-Z][a-zA-Z0-9_]*`. -/
def isNameSegment : List Char → Bool
  | [] => false
  | c :: rest => isAsciiLetter c && rest.all isWordChar

/-- Splits a character list on a separator character (every occurrence;
`splitSep ':' "a::b"` gives `["a", "", "b"]`), the model of JS
`String.prototype.split` with a single-character separator. -/
def splitSep (sep : Char) : List Char → List (List Char)
  | [] => [[]]
  | c :: rest =>
      let r := splitSep sep rest
      if c = sep then [] :: r
      else
        match r with
        | [] => [[c]]
        | seg :: segs => (c :: seg) :: segs

/-- `Patterns.VERSION = ^\d+\.\d+\.\d+$`. -/
def isValidVersionChars (cs : List Char) : Bool :=
  match splitSep '.' cs with
  | [a, b, c] => !a.isEmpty && a.all isDigitChar &&
                 !b.isEmpty && b.all isDigitChar &&
                 !c.isEmpty && c.all isDigitChar
  | _ => false

/-- `isValidVersion` from `src/validators` (the `Patterns.VERSION` test). -/
def isValidVersion (s : String) : Bool := isValidVersionChars s.toList

/-- `Patterns.UUID = ^[0-9a-f]{8}-[0-9a-f]{4}-[0-9a-f]{4}-[0-9a-f]{4}-[0-9a-f]{12}$/i`. -/
def isUUIDChars (cs : List Char) : Bool :=
  match splitSep '-' cs with
  | [a, b, c, d, e] =>
      a.length = 8 && b.length = 4 && c.length = 4 && d.length = 4 &&
      e.length = 12 && a.all isHexChar && b.all isHexChar &&
      c.all isHexChar && d.all isHexChar && e.all isHexChar
  | _ => false

/-- The `Patterns.UUID` test on a string. -/
def isUUID (s : String) : Bool := isUUIDChars s.toList

/-- `Patterns.METHOD_NAME = ^[a-zA-Z][a-zA-Z0-9_]*(?::[a-zA-Z][a-zA-Z0-9_]*)+$`:
at least two word segments separated by colons. -/
def isMethodNameChars (cs : List Char) : Bool :=
  match splitSep ':' cs with
  | [] => false
  | [_] => false
  | segs => segs.all isNameSegment

/-- `Patterns.TOPIC_NAME = ^[a-zA-Z][a-zA-Z0-9_]*(?::[a-zA-Z][a-zA-Z0-9_]*)*$`:
one or more word segments separated by colons. -/
def isTopicNameChars (cs : List Char) : Bool :=
  match splitSep ':' cs with
  | [] => false
  | segs => segs.all isNameSegment

/-! ### Protocol constants (`src/constants/protocol.js`) -/

/-- `MessageType.values()`. -/
def messageTypeValues : List String :=
  ["request", "response", "notification", "error", "ack", "ping"]

/-- `MessageType.isValid(value)` (membership in the six types). -/
def messageTypeIsValid (v : JsVal) : Bool :=
  match v with
  | .str s => messageTypeValues.contains s
  | _ => false

/-- `ReservedNamespaces`. -/
def reservedNamespaces : List String := ["system", "internal", "stream", "helios"]

/-- `SizeLimits.MAX_METHOD_NAME`. -/
def maxMethodName : Nat := 128

/-- `SizeLimits.MAX_MESSAGE_SIZE` (1 MiB). -/
def maxMessageSize : Nat := 1024 * 1024

/-- `SizeLimits.MAX_ERROR_MESSAGE`. -/
def maxErrorMessage : Nat := 1024

/-! ### JS string helpers used by `validateBaseMessage` -/

/-- Substring test, the model of JS `String.prototype.includes`. -/
def strIncludes (hay needle : List Char) : Bool :=
  (List.range (hay.length + 1)).any (fun i => needle.isPrefixOf (hay.drop i))

/-- JS string coercion `String(v)` as applied by `String.prototype.includes`
to its argument.  Array elements convert with `Array.prototype.join`
semantics (`null`/`undefined` become empty). -/
def jsToString : JsVal → String
  | .null => "null"
  | .undef => "undefined"
  | .bool true => "true"
  | .bool false => "false"
  | .num n => toString n
  | .str s => s
  | .arr xs => String.intercalate "," (xs.map joinElem)
  | .obj _ => "[object Object]"
where joinElem : JsVal → String
  | .null => ""
  | .undef => ""
  | .bool true => "true"
  | .bool false => "false"
  | .num n => toString n
  | .str s => s
  | .arr _ => ""
  | .obj _ => "[object Object]"

/-- `MessageType.values().join(', ')` — in `validateBaseMessage` this string
(not the array) is what `message.type` is tested against. -/
def validTypesJoined : String :=
  "request, response, notification, error, ack, ping"

/-! ### `validateBaseMessage` (`src/validators/base.js`)

Faithful to the source, including its two slips in the `type` check:

* `validTypes` is the *string* `values().join(', ')`, so
  `validTypes.includes(message.type)` is a substring test, accepting any
  substring of `"request, response, notification, error, ack, ping"`;
* in the failure branch the template calls `validTypes.join(', ')` on that
  string — strings have no `join`, so the call throws a `TypeError`.

The throwing branch is modelled as `Except.error`.  The source additionally
defaults `message.peer = false` in place when the key is absent; that
mutation is modelled separately by `basePeerNormalize` (none of the
downstream checks of the per-type validators read `peer`). -/

structure ValidationResult where
  valid : Bool
  errors : List String
deriving DecidableEq, Repr

/-- `validateBaseMessage(message)` from `src/validators/base.js`
(also exposed at lines 562–619 of `src/validators/protocol.js`). -/
def validateBaseMessage (message : JsVal) : Except String ValidationResult :=
  match message with
  | .obj _ =>
    if message.isArray then .ok ⟨false, ["Message must be an object"]⟩ else
    let e1 : List String :=
      if !message.hasField "protocol" then ["Missing required field: protocol"]
      else if !(message.fieldOr "protocol").isStr "helios-starling" then
        ["Invalid protocol: must be \"helios-starling\""]
      else []
    let e2 : List String :=
      if !message.hasField "version" then ["Missing required field: version"]
      else if !(message.fieldOr "version").typeofIsString then
        ["Version must be a string"]
      else if !(isValidVersion (jsToString (message.fieldOr "version"))) then
        ["Version must be in semantic version format (x.y.z)"]
      else []
    let e3 : List String :=
      if !message.hasField "timestamp" then ["Missing required field: timestamp"]
      else if !(message.fieldOr "timestamp").typeofIsNumber then
        ["Timestamp must be an integer"]
      else if (match message.fieldOr "timestamp" with
               | .num n => decide (n < 0)
               | _ => false) then ["Timestamp must be a positive number"]
      else []
    if !message.hasField "type" then
      let e4 := ["Missing required field: type"]
      let e5 : List String :=
        if message.hasField "peer" then
          if !(message.fieldOr "peer").typeofIsBoolean &&
             !(message.fieldOr "peer").typeofIsObject then
            ["Peer must be a boolean or object"]
          else []
        else []
      let errors := e1 ++ e2 ++ e3 ++ e4 ++ e5
      .ok ⟨errors.isEmpty, errors⟩
    else if !(strIncludes validTypesJoined.toList
                (jsToString (message.fieldOr "type")).toList) then
      -- `validTypes.join(', ')` — `validTypes` is a string: TypeError.
      .error "TypeError: validTypes.join is not a function"
    else
      let e5 : List String :=
        if message.hasField "peer" then
          if !(message.fieldOr "peer").typeofIsBoolean &&
             !(message.fieldOr "peer").typeofIsObject then
            ["Peer must be a boolean or object"]
          else []
        else []
      let errors := e1 ++ e2 ++ e3 ++ e5
      .ok ⟨errors.isEmpty, errors⟩
  | _ => .ok ⟨false, ["Message must be an object"]⟩

/-- The in-place `message.peer = false` defaulting performed by
`validateBaseMessage` when the key is absent. -/
def basePeerNormalize (message : JsVal) : JsVal :=
  if message.hasField "peer" then message
  else message.setField "peer" (.bool false)

/-! ### JSON codec

Model of the host pair `JSON.stringify` / `JSON.parse` used by the codec
(`BaseStarling._send` serializes with `JSON.stringify`;
`ProtocolResolution._detectFormat` parses text frames with `JSON.parse`).
`stringifyVal` emits compact JSON exactly as `JSON.stringify` does:
object fields in insertion order, `undefined`-valued fields dropped,
`undefined` array elements as `null`, strings escaped (`"` `\` named
control escapes, other control characters as `\u00xx`).  `parseVal` is a
recursive-descent reading of the grammar restricted to what `stringify`
emits (no insignificant whitespace, integer numerals). -/

/-- Digit character for a value `< 10` (models the numerals emitted by
`JSON.stringify`). -/
def digitChar : Nat → Char
  | 0 => '0' | 1 => '1' | 2 => '2' | 3 => '3' | 4 => '4'
  | 5 => '5' | 6 => '6' | 7 => '7' | 8 => '8' | _ => '9'

/-- Numeric value of an ASCII digit (models `c.charCodeAt(0) - 48`). -/
def digitVal (c : Char) : Nat := c.toNat - 48

/-- Lowercase hex digit for a value `< 16` (as emitted in `\u00xx`). -/
def hexDig : Nat → Char
  | 0 => '0' | 1 => '1' | 2 => '2' | 3 => '3' | 4 => '4'
  | 5 => '5' | 6 => '6' | 7 => '7' | 8 => '8' | 9 => '9'
  | 10 => 'a' | 11 => 'b' | 12 => 'c' | 13 => 'd' | 14 => 'e' | _ => 'f'

/-- Value of a hex digit (either case). -/
def hexVal (c : Char) : Nat :=
  if isDigitChar c then c.toNat - 48
  else if 'a' ≤ c && c ≤ 'f' then c.toNat - 87
  else if 'A' ≤ c && c ≤ 'F' then c.toNat - 55
  else 0

/-- Decimal numeral of a natural number, most significant digit first. -/
def natChars (n : Nat) : List Char :=
  if n < 10 then [digitChar n]
  else natChars (n / 10) ++ [digitChar (n % 10)]
decreasing_by exact Nat.div_lt_self (by omega) (by omega)

/-- Decimal numeral of an integer. -/
def intChars (i : Int) : List Char :=
  if i < 0 then '-' :: natChars i.natAbs else natChars i.natAbs

/-- `JSON.stringify` escaping of one string character. -/
def escChar (c : Char) : List Char :=
  if c = '"' then ['\\', '"']
  else if c = '\\' then ['\\', '\\']
  else if c.toNat = 8 then ['\\', 'b']
  else if c.toNat = 9 then ['\\', 't']
  else if c.toNat = 10 then ['\\', 'n']
  else if c.toNat = 12 then ['\\', 'f']
  else if c.toNat = 13 then ['\\', 'r']
  else if c.toNat < 32 then
    ['\\', 'u', '0', '0', hexDig (c.toNat / 16), hexDig (c.toNat % 16)]
  else [c]

/-- `JSON.stringify` escaping of a string body. -/
def escapeChars : List Char → List Char
  | [] => []
  | c :: cs => escChar c ++ escapeChars cs

/-- A serialized JSON string (quotes plus escaped body). -/
def strLit (s : String) : List Char :=
  '"' :: (escapeChars s.toList ++ ['"'])

/-- Is the JS value `undefined`?  (`JSON.stringify` drops such fields.) -/
def isUndef : JsVal → Bool
  | .undef => true
  | _ => false

mutual
/-- Compact serialization, the model of `JSON.stringify`. -/
def stringifyVal : JsVal → List Char
  | .null => ['n', 'u', 'l', 'l']
  | .undef => ['n', 'u', 'l', 'l']  -- array-position behavior of JSON.stringify
  | .bool true => 't' :: ['r', 'u', 'e']
  | .bool false => ['f', 'a', 'l', 's', 'e']
  | .num i => intChars i
  | .str s => strLit s
  | .arr xs => '[' :: (stringifyElems xs ++ [']'])
  | .obj fs => '{' :: (stringifyFields fs ++ ['}'])

/-- Array elements, comma-separated. -/
def stringifyElems : List JsVal → List Char
  | [] => []
  | [x] => stringifyVal x
  | x :: y :: xs => stringifyVal x ++ ',' :: stringifyElems (y :: xs)

/-- Object members, comma-separated; `undefined`-valued members are dropped
(as `JSON.stringify` does). -/
def stringifyFields : List (String × JsVal) → List Char
  | [] => []
  | (k, v) :: rest =>
      if isUndef v then stringifyFields rest
      else if rest.any (fun p => !isUndef p.2) then
        strLit k ++ ':' :: stringifyVal v ++ ',' :: stringifyFields rest
      else
        strLit k ++ ':' :: stringifyVal v ++ stringifyFields rest
end

/-- `stringifyVal` producing a `String`. -/
def jsonStringify (v : JsVal) : String := String.mk (stringifyVal v)

/-- Size estimation from `src/utils/message.js`:
`new TextEncoder().encode(JSON.stringify(message)).length`, i.e. the UTF-8
byte length of the serialized form. -/
def estimateMessageSize (v : JsVal) : Nat :=
  (stringifyVal v).foldl (fun a c => a + c.utf8Size) 0

/-- Longest digit prefix, accumulator style (the number-reading loop of
`JSON.parse`). -/
def parseDigitsAux (acc : Nat) : List Char → Nat × List Char
  | [] => (acc, [])
  | c :: cs =>
      if isDigitChar c then parseDigitsAux (acc * 10 + digitVal c) cs
      else (acc, c :: cs)

/-- JSON string body (after the opening quote): unescapes until the closing
quote; raw control characters are rejected as `JSON.parse` does. -/
def parseStringBody : List Char → Option (List Char × List Char)
  | [] => none
  | c :: rest =>
    if c = '"' then some ([], rest)
    else if c = '\\' then
      match rest with
      | [] => none
      | e :: rest2 =>
        if e = '"' then (parseStringBody rest2).map (fun p => ('"' :: p.1, p.2))
        else if e = '\\' then (parseStringBody rest2).map (fun p => ('\\' :: p.1, p.2))
        else if e = '/' then (parseStringBody rest2).map (fun p => ('/' :: p.1, p.2))
        else if e = 'b' then (parseStringBody rest2).map (fun p => (Char.ofNat 8 :: p.1, p.2))
        else if e = 't' then (parseStringBody rest2).map (fun p => (Char.ofNat 9 :: p.1, p.2))
        else if e = 'n' then (parseStringBody rest2).map (fun p => (Char.ofNat 10 :: p.1, p.2))
        else if e = 'f' then (parseStringBody rest2).map (fun p => (Char.ofNat 12 :: p.1, p.2))
        else if e = 'r' then (parseStringBody rest2).map (fun p => (Char.ofNat 13 :: p.1, p.2))
        else if e = 'u' then
          match rest2 with
          | h1 :: h2 :: h3 :: h4 :: rest3 =>
            if isHexChar h1 && isHexChar h2 && isHexChar h3 && isHexChar h4 then
              (parseStringBody rest3).map (fun p =>
                (Char.ofNat (hexVal h1 * 4096 + hexVal h2 * 256 +
                             hexVal h3 * 16 + hexVal h4) :: p.1, p.2))
            else none
          | _ => none
        else none
    else if c.toNat < 32 then none
    else (parseStringBody rest).map (fun p => (c :: p.1, p.2))

mutual
/-- One JSON value; returns the value and the unconsumed suffix.  The fuel
argument only serves termination; `jsonParse` supplies enough for any input. -/
def parseVal : Nat → List Char → Option (JsVal × List Char)
  | 0, _ => none
  | _ + 1, [] => none
  | f + 1, c :: rest =>
    if c = 'n' then
      match rest with
      | 'u' :: 'l' :: 'l' :: r => some (.null, r)
      | _ => none
    else if c = 't' then
      match rest with
      | 'r' :: 'u' :: 'e' :: r => some (.bool true, r)
      | _ => none
    else if c = 'f' then
      match rest with
      | 'a' :: 'l' :: 's' :: 'e' :: r => some (.bool false, r)
      | _ => none
    else if c = '"' then
      match parseStringBody rest with
      | some (chars, r) => some (.str (String.mk chars), r)
      | none => none
    else if c = '[' then
      match parseElems f rest with
      | some (xs, r) => some (.arr xs, r)
      | none => none
    else if c = '{' then
      match parseMembers f rest with
      | some (fs, r) => some (.obj fs, r)
      | none => none
    else if c = '-' then
      match rest with
      | c2 :: r2 =>
          if isDigitChar c2 then
            let p := parseDigitsAux (digitVal c2) r2
            some (.num (-(p.1 : Int)), p.2)
          else none
      | [] => none
    else if isDigitChar c then
      let p := parseDigitsAux (digitVal c) rest
      some (.num (p.1 : Int), p.2)
    else none

/-- Array tail after `[`: either an immediate `]` or comma-separated values. -/
def parseElems : Nat → List Char → Option (List JsVal × List Char)
  | 0, _ => none
  | _ + 1, [] => none
  | f + 1, c :: rest =>
    if c = ']' then some ([], rest)
    else
      match parseVal f (c :: rest) with
      | some (v, r) =>
          match r with
          | ',' :: r2 =>
              match parseElems f r2 with
              | some (vs, r3) => some (v :: vs, r3)
              | none => none
          | ']' :: r2 => some ([v], r2)
          | _ => none
      | none => none

/-- Object tail after `{`: either an immediate `}` or comma-separated
`"key":value` members. -/
def parseMembers : Nat → List Char → Option (List (String × JsVal) × List Char)
  | 0, _ => none
  | _ + 1, [] => none
  | f + 1, c :: rest =>
    if c = '}' then some ([], rest)
    else if c = '"' then
      match parseStringBody rest with
      | some (kchars, r1) =>
          match r1 with
          | ':' :: r2 =>
              match parseVal f r2 with
              | some (v, r3) =>
                  match r3 with
                  | ',' :: r4 =>
                      match parseMembers f r4 with
                      | some (fs, r5) => some ((String.mk kchars, v) :: fs, r5)
                      | none => none
                  | '}' :: r4 => some ([(String.mk kchars, v)], r4)
                  | _ => none
              | none => none
          | _ => none
      | none => none
    else none
end

/-- `JSON.parse`: succeeds only when the whole input is one JSON value. -/
def jsonParse (s : String) : Option JsVal :=
  match parseVal (s.toList.length + 1) s.toList with
  | some (v, []) => some v
  | _ => none

mutual
/-- No `undefined` anywhere: the domain on which `JSON.stringify` followed by
`JSON.parse` is the identity. -/
def jsonPure : JsVal → Bool
  | .undef => false
  | .arr xs => jsonPureList xs
  | .obj fs => jsonPureFields fs
  | _ => true

def jsonPureList : List JsVal → Bool
  | [] => true
  | v :: vs => jsonPure v && jsonPureList vs

def jsonPureFields : List (String × JsVal) → Bool
  | [] => true
  | (_, v) :: fs => jsonPure v && jsonPureFields fs
end

mutual
/-- Fuel sufficient to parse a serialized value. -/
def jweight : JsVal → Nat
  | .arr xs => 1 + jweightList xs
  | .obj fs => 1 + jweightFields fs
  | _ => 1

def jweightList : List JsVal → Nat
  | [] => 1
  | v :: vs => 1 + max (jweight v) (jweightList vs)

def jweightFields : List (String × JsVal) → Nat
  | [] => 1
  | (_, v) :: fs => 1 + max (jweight v) (jweightFields fs)
end

/-! ### Round-trip lemmas for the JSON codec -/

theorem isDigitChar_digitChar (m : Nat) : isDigitChar (digitChar m) = true := by
  unfold digitChar; split <;> decide

theorem digitVal_digitChar {m : Nat} (h : m < 10) : digitVal (digitChar m) = m := by
  interval_cases m <;> decide

theorem digit_ne {c : Char} (h : isDigitChar c = true) {d : Char}
    (hd : isDigitChar d = false) : ¬(c = d) := by
  intro e; subst e; rw [h] at hd; cases hd

theorem notDigit_natChars_head {c : Char} {cs : List Char} {n : Nat}
    (h : natChars n = c :: cs) : isDigitChar c = true := by
  rw [natChars] at h
  split at h
  · cases h; exact isDigitChar_digitChar n
  · rcases e : natChars (n / 10) with _ | ⟨d, ds⟩
    · rw [e] at h; cases h; exact isDigitChar_digitChar _
    · rw [e] at h; cases h; exact notDigit_natChars_head e

theorem natChars_ne_nil (n : Nat) : natChars n ≠ [] := by
  rw [natChars]
  split
  · simp
  · rcases e : natChars (n / 10) with _ | ⟨d, ds⟩ <;> simp

/-- A stopped digit scan. -/
def notDigitHead : List Char → Bool
  | [] => true
  | c :: _ => !isDigitChar c

theorem parseDigitsAux_stop {cs : List Char} (acc : Nat)
    (h : notDigitHead cs = true) : parseDigitsAux acc cs = (acc, cs) := by
  cases cs with
  | nil => rfl
  | cons c cs' =>
      simp only [notDigitHead, Bool.not_eq_true'] at h
      simp [parseDigitsAux, h]

theorem parseDigitsAux_natChars (n : Nat) : ∀ acc rest,
    parseDigitsAux acc (natChars n ++ rest) =
      parseDigitsAux (acc * 10 ^ (natChars n).length + n) rest := by
  induction n using Nat.strong_induction_on with
  | _ n ih =>
    intro acc rest
    rw [natChars]
    split
    · next h =>
        simp [parseDigitsAux, isDigitChar_digitChar n, digitVal_digitChar h]
    · next h =>
        have hlt : n / 10 < n := Nat.div_lt_self (by omega) (by omega)
        rw [List.append_assoc, List.cons_append, List.nil_append, ih _ hlt]
        simp only [parseDigitsAux, isDigitChar_digitChar (n % 10),
          digitVal_digitChar (Nat.mod_lt n (by omega)), List.length_append,
          List.length_singleton]
        have : (acc * 10 ^ (natChars (n / 10)).length + n / 10) * 10 +
            n % 10 = acc * 10 ^ ((natChars (n / 10)).length + 1) + n := by
          rw [pow_succ]; have := Nat.div_add_mod n 10; ring_nf; omega
        rw [this]; simp

theorem parseDigits_natChars (n : Nat) {c : Char} {cs rest : List Char}
    (he : natChars n = c :: cs) (hrest : notDigitHead rest = true) :
    parseDigitsAux (digitVal c) (cs ++ rest) = (n, rest) := by
  have h1 : parseDigitsAux 0 (natChars n ++ rest) = (n, rest) := by
    rw [parseDigitsAux_natChars, parseDigitsAux_stop _ hrest]
    simp
  rw [he] at h1
  simp only [List.cons_append, parseDigitsAux, notDigit_natChars_head he,
    if_true] at h1
  simpa using h1

theorem hexVal_hexDig {m : Nat} (h : m < 16) : hexVal (hexDig m) = m := by
  interval_cases m <;> decide

theorem isHexChar_hexDig (m : Nat) : isHexChar (hexDig m) = true := by
  unfold hexDig; split <;> decide

theorem parseStringBody_escChar (c : Char) (X : List Char) :
    parseStringBody (escChar c ++ X) =
      (parseStringBody X).map (fun p => (c :: p.1, p.2)) := by
  unfold escChar
  split_ifs with h1 h2 h3 h4 h5 h6 h7 h8
  · subst h1; rw [parseStringBody.eq_def]; simp
  · subst h2; rw [parseStringBody.eq_def]; simp
  · have hc : c = Char.ofNat 8 := by rw [← Char.ofNat_toNat c, h3]
    rw [hc, parseStringBody.eq_def]; simp
  · have hc : c = Char.ofNat 9 := by rw [← Char.ofNat_toNat c, h4]
    rw [hc, parseStringBody.eq_def]; simp
  · have hc : c = Char.ofNat 10 := by rw [← Char.ofNat_toNat c, h5]
    rw [hc, parseStringBody.eq_def]; simp
  · have hc : c = Char.ofNat 12 := by rw [← Char.ofNat_toNat c, h6]
    rw [hc, parseStringBody.eq_def]; simp
  · have hc : c = Char.ofNat 13 := by rw [← Char.ofNat_toNat c, h7]
    rw [hc, parseStringBody.eq_def]; simp
  · -- the \u00xx branch
    have hv0 : hexVal '0' = 0 := by decide
    have hd1 : hexVal (hexDig (c.toNat / 16)) = c.toNat / 16 :=
      hexVal_hexDig (by omega)
    have hd2 : hexVal (hexDig (c.toNat % 16)) = c.toNat % 16 :=
      hexVal_hexDig (by omega)
    have hx0 : isHexChar '0' = true := by decide
    have harith : c.toNat / 16 * 16 + c.toNat % 16 = c.toNat := by omega
    rw [List.cons_append, parseStringBody.eq_def]
    simp only [List.cons_append, List.nil_append]
    simp [isHexChar_hexDig, hv0, hd1, hd2, hx0, harith, Char.ofNat_toNat]
  · -- ordinary character
    have hc : ¬(c.toNat < 32) := by omega
    rw [List.singleton_append, parseStringBody.eq_def]
    simp only [if_neg h1, if_neg h2, if_neg hc]

theorem parseStringBody_escape (l : List Char) (rest : List Char) :
    parseStringBody (escapeChars l ++ '"' :: rest) = some (l, rest) := by
  induction l with
  | nil =>
      simp only [escapeChars, List.nil_append]
      rw [parseStringBody.eq_def]; simp
  | cons c l ih =>
      rw [escapeChars, List.append_assoc, parseStringBody_escChar, ih]
      rfl

theorem String.mk_toList (s : String) : String.mk s.toList = s := by
  cases s; rfl

theorem parseVal_step_null (f : Nat) (r : List Char) :
    parseVal (f + 1) (stringifyVal .null ++ r) = some (.null, r) := rfl

theorem parseVal_step_true (f : Nat) (r : List Char) :
    parseVal (f + 1) (stringifyVal (.bool true) ++ r) = some (.bool true, r) := rfl

theorem parseVal_step_false (f : Nat) (r : List Char) :
    parseVal (f + 1) (stringifyVal (.bool false) ++ r) = some (.bool false, r) := rfl

theorem parseVal_step_str (f : Nat) (s : String) (r : List Char) :
    parseVal (f + 1) (stringifyVal (.str s) ++ r) = some (.str s, r) := by
  have he : stringifyVal (.str s) ++ r =
      '"' :: (escapeChars s.toList ++ '"' :: r) := by
    rw [show stringifyVal (.str s) = strLit s from rfl, strLit]
    simp
  rw [he]
  simp [parseVal, parseStringBody_escape, String.mk_toList]

theorem parseVal_step_num (f : Nat) (i : Int) (r : List Char)
    (hr : notDigitHead r = true) :
    parseVal (f + 1) (stringifyVal (.num i) ++ r) = some (.num i, r) := by
  rw [show stringifyVal (.num i) = intChars i from rfl, intChars]
  split_ifs with hneg
  · -- negative: a minus sign then the digits of the absolute value
    rcases he : natChars i.natAbs with _ | ⟨c2, cs⟩
    · exact absurd he (natChars_ne_nil _)
    have hd := notDigit_natChars_head he
    have hp := parseDigits_natChars i.natAbs he hr
    simp only [List.cons_append]
    simp [parseVal, hd, hp]
    rw [abs_of_neg hneg]; ring
  · -- non-negative: leading digit character
    rcases he : natChars i.natAbs with _ | ⟨c2, cs⟩
    · exact absurd he (natChars_ne_nil _)
    have hd := notDigit_natChars_head he
    have hp := parseDigits_natChars i.natAbs he hr
    have h1 : ¬(c2 = 'n') := digit_ne hd (by decide)
    have h2 : ¬(c2 = 't') := digit_ne hd (by decide)
    have h3 : ¬(c2 = 'f') := digit_ne hd (by decide)
    have h4 : ¬(c2 = '"') := digit_ne hd (by decide)
    have h5 : ¬(c2 = '[') := digit_ne hd (by decide)
    have h6 : ¬(c2 = '{') := digit_ne hd (by decide)
    have h7 : ¬(c2 = '-') := digit_ne hd (by decide)
    simp only [List.cons_append]
    simp [parseVal, h1, h2, h3, h4, h5, h6, h7, hd, hp]
    omega

theorem stringify_head (v : JsVal) :
    ∃ c cs, stringifyVal v = c :: cs ∧ ¬(c = ']') ∧ ¬(c = '}') ∧ ¬(c = ',') := by
  cases v with
  | null => exact ⟨'n', _, rfl, by decide, by decide, by decide⟩
  | undef => exact ⟨'n', _, rfl, by decide, by decide, by decide⟩
  | bool b =>
      cases b
      · exact ⟨'f', _, rfl, by decide, by decide, by decide⟩
      · exact ⟨'t', _, rfl, by decide, by decide, by decide⟩
  | num i =>
      rw [show stringifyVal (.num i) = intChars i from rfl, intChars]
      split_ifs with hneg
      · exact ⟨'-', _, rfl, by decide, by decide, by decide⟩
      · rcases he : natChars i.natAbs with _ | ⟨c2, cs⟩
        · exact absurd he (natChars_ne_nil _)
        have hd := notDigit_natChars_head he
        exact ⟨c2, cs, rfl, digit_ne hd (by decide), digit_ne hd (by decide),
          digit_ne hd (by decide)⟩
  | str s => exact ⟨'"', _, rfl, by decide, by decide, by decide⟩
  | arr xs => exact ⟨'[', _, rfl, by decide, by decide, by decide⟩
  | obj fs => exact ⟨'{', _, rfl, by decide, by decide, by decide⟩

theorem jweight_pos (v : JsVal) : 1 ≤ jweight v := by
  cases v <;> simp [jweight]

theorem jweightList_pos (xs : List JsVal) : 1 ≤ jweightList xs := by
  cases xs <;> simp [jweightList]

theorem jweightFields_pos (fs : List (String × JsVal)) : 1 ≤ jweightFields fs := by
  cases fs with
  | nil => simp [jweightFields]
  | cons p fs => cases p; simp [jweightFields]

theorem jsonPure_not_undef {v : JsVal} (h : jsonPure v = true) :
    isUndef v = false := by
  cases v <;> simp_all [jsonPure, isUndef]

mutual
theorem stringify_parseVal (v : JsVal) (f : Nat) (rest : List Char)
    (hw : jweight v ≤ f) (hp : jsonPure v = true)
    (hr : notDigitHead rest = true) :
    parseVal f (stringifyVal v ++ rest) = some (v, rest) := by
  obtain ⟨f', rfl⟩ : ∃ f', f = f' + 1 := by
    cases f with
    | zero => exact absurd hw (by have := jweight_pos v; omega)
    | succ f' => exact ⟨f', rfl⟩
  cases v with
  | null => exact parseVal_step_null f' rest
  | undef => simp [jsonPure] at hp
  | bool b =>
      cases b
      · exact parseVal_step_false f' rest
      · exact parseVal_step_true f' rest
  | num i => exact parseVal_step_num f' i rest hr
  | str s => exact parseVal_step_str f' s rest
  | arr xs =>
      have hw' : jweightList xs ≤ f' := by
        have : jweight (.arr xs) = 1 + jweightList xs := rfl
        omega
      have hp' : jsonPureList xs = true := by
        simpa [jsonPure] using hp
      have he : stringifyVal (.arr xs) ++ rest =
          '[' :: (stringifyElems xs ++ ']' :: rest) := by
        rw [show stringifyVal (.arr xs) = '[' :: (stringifyElems xs ++ [']'])
          from rfl]
        simp
      rw [he]
      simp [parseVal, stringify_parseElems xs f' rest hw' hp']
  | obj fs =>
      have hw' : jweightFields fs ≤ f' := by
        have : jweight (.obj fs) = 1 + jweightFields fs := rfl
        omega
      have hp' : jsonPureFields fs = true := by
        simpa [jsonPure] using hp
      have he : stringifyVal (.obj fs) ++ rest =
          '{' :: (stringifyFields fs ++ '}' :: rest) := by
        rw [show stringifyVal (.obj fs) = '{' :: (stringifyFields fs ++ ['}'])
          from rfl]
        simp
      rw [he]
      simp [parseVal, stringify_parseMembers fs f' rest hw' hp']
termination_by f
decreasing_by all_goals omega

theorem stringify_parseElems (xs : List JsVal) (f : Nat) (rest : List Char)
    (hw : jweightList xs ≤ f) (hp : jsonPureList xs = true) :
    parseElems f (stringifyElems xs ++ ']' :: rest) = some (xs, rest) := by
  obtain ⟨f', rfl⟩ : ∃ f', f = f' + 1 := by
    cases f with
    | zero => exact absurd hw (by have := jweightList_pos xs; omega)
    | succ f' => exact ⟨f', rfl⟩
  cases xs with
  | nil => simp [stringifyElems, parseElems]
  | cons x xs' =>
      have hpx : jsonPure x = true := by
        simp [jsonPureList] at hp; exact hp.1
      obtain ⟨c, cs, he, hne1, _, _⟩ := stringify_head x
      cases xs' with
      | nil =>
          have hwx : jweight x ≤ f' := by
            have : jweightList [x] = 1 + max (jweight x) 1 := rfl
            omega
          have hx := stringify_parseVal x f' (']' :: rest) hwx hpx rfl
          rw [show stringifyElems [x] = stringifyVal x from rfl]
          rw [he] at hx ⊢
          simp only [List.cons_append, List.append_eq] at hx ⊢
          simp only [parseElems, if_neg hne1]
          rw [hx]
          rfl
      | cons y ys =>
          have hwx : jweight x ≤ f' := by
            have : jweightList (x :: y :: ys) =
                1 + max (jweight x) (jweightList (y :: ys)) := rfl
            omega
          have hwy : jweightList (y :: ys) ≤ f' := by
            have : jweightList (x :: y :: ys) =
                1 + max (jweight x) (jweightList (y :: ys)) := rfl
            omega
          have hpy : jsonPureList (y :: ys) = true := by
            simp [jsonPureList] at hp ⊢
            exact ⟨hp.2.1, hp.2.2⟩
          have hx := stringify_parseVal x f'
            (',' :: (stringifyElems (y :: ys) ++ ']' :: rest)) hwx hpx rfl
          have hy := stringify_parseElems (y :: ys) f' rest hwy hpy
          rw [show stringifyElems (x :: y :: ys) =
            stringifyVal x ++ ',' :: stringifyElems (y :: ys) from rfl]
          rw [he] at hx ⊢
          simp only [List.cons_append, List.append_assoc, List.append_eq]
            at hx ⊢
          simp only [parseElems, if_neg hne1]
          rw [hx]
          simp [hy]
termination_by f
decreasing_by all_goals omega

theorem stringify_parseMembers (fs : List (String × JsVal)) (f : Nat)
    (rest : List Char) (hw : jweightFields fs ≤ f)
    (hp : jsonPureFields fs = true) :
    parseMembers f (stringifyFields fs ++ '}' :: rest) = some (fs, rest) := by
  obtain ⟨f', rfl⟩ : ∃ f', f = f' + 1 := by
    cases f with
    | zero => exact absurd hw (by have := jweightFields_pos fs; omega)
    | succ f' => exact ⟨f', rfl⟩
  cases fs with
  | nil => simp [stringifyFields, parseMembers]
  | cons kv fs' =>
      obtain ⟨k, v⟩ := kv
      have hpv : jsonPure v = true := by
        simp [jsonPureFields] at hp; exact hp.1
      have hpf : jsonPureFields fs' = true := by
        simp [jsonPureFields] at hp; exact hp.2
      have hu : isUndef v = false := jsonPure_not_undef hpv
      have hs : stringifyFields ((k, v) :: fs') =
          if isUndef v then stringifyFields fs'
          else if fs'.any (fun p => !isUndef p.2) then
            strLit k ++ ':' :: stringifyVal v ++ ',' :: stringifyFields fs'
          else strLit k ++ ':' :: stringifyVal v ++ stringifyFields fs' := rfl
      have hwv : jweight v ≤ f' := by
        have : jweightFields ((k, v) :: fs') =
            1 + max (jweight v) (jweightFields fs') := rfl
        omega
      have hwf : jweightFields fs' ≤ f' := by
        have : jweightFields ((k, v) :: fs') =
            1 + max (jweight v) (jweightFields fs') := rfl
        omega
      cases fs' with
      | nil =>
          have hb : stringifyFields [(k, v)] =
              strLit k ++ ':' :: stringifyVal v := by
            rw [hs, if_neg (by simp [hu]), if_neg (by simp)]
            simp [stringifyFields]
          have hx := stringify_parseVal v f' ('}' :: rest) hwv hpv rfl
          rw [hb]
          have hsc : (strLit k ++ ':' :: stringifyVal v) ++ '}' :: rest =
              '"' :: (escapeChars k.toList ++
                '"' :: (':' :: (stringifyVal v ++ '}' :: rest))) := by
            simp [strLit]
          rw [hsc]
          simp [parseMembers, parseStringBody_escape, hx, String.mk_toList]
      | cons kv2 fs'' =>
          have hany : (kv2 :: fs'').any (fun p => !isUndef p.2) = true := by
            have : isUndef kv2.2 = false := by
              obtain ⟨k2, v2⟩ := kv2
              have : jsonPure v2 = true := by
                simp [jsonPureFields] at hpf; exact hpf.1
              exact jsonPure_not_undef this
            simp [List.any_cons, this]
          have hb : stringifyFields ((k, v) :: kv2 :: fs'') =
              strLit k ++ ':' :: stringifyVal v ++
                ',' :: stringifyFields (kv2 :: fs'') := by
            rw [hs, if_neg (by simp [hu]), if_pos hany]
          have hx := stringify_parseVal v f'
            (',' :: (stringifyFields (kv2 :: fs'') ++ '}' :: rest)) hwv hpv rfl
          have hfs := stringify_parseMembers (kv2 :: fs'') f' rest hwf hpf
          rw [hb]
          have hsc : (strLit k ++ ':' :: stringifyVal v ++
                ',' :: stringifyFields (kv2 :: fs'')) ++ '}' :: rest =
              '"' :: (escapeChars k.toList ++ '"' :: (':' :: (stringifyVal v ++
                ',' :: (stringifyFields (kv2 :: fs'') ++ '}' :: rest)))) := by
            simp [strLit]
          rw [hsc]
          simp [parseMembers, parseStringBody_escape, hx, hfs,
            String.mk_toList]
termination_by f
decreasing_by all_goals omega
end

theorem stringify_length_pos (v : JsVal) : 1 ≤ (stringifyVal v).length := by
  obtain ⟨c, cs, he, -, -, -⟩ := stringify_head v
  rw [he]; simp

mutual
theorem jweight_le (v : JsVal) (hp : jsonPure v = true) :
    jweight v ≤ (stringifyVal v).length + 1 := by
  cases v with
  | null => decide
  | undef => decide
  | bool b => cases b <;> decide
  | num i =>
      have h : jweight (.num i) = 1 := rfl
      have := stringify_length_pos (.num i)
      omega
  | str s =>
      have := stringify_length_pos (.str s)
      have : jweight (.str s) = 1 := rfl
      omega
  | arr xs =>
      have hb := jweightList_le xs (by simpa [jsonPure] using hp)
      have h1 : jweight (.arr xs) = 1 + jweightList xs := rfl
      have h2 : (stringifyVal (.arr xs)).length =
          (stringifyElems xs).length + 2 := by
        rw [show stringifyVal (.arr xs) = '[' :: (stringifyElems xs ++ [']'])
          from rfl]
        simp
      omega
  | obj fs =>
      have hb := jweightFields_le fs (by simpa [jsonPure] using hp)
      have h1 : jweight (.obj fs) = 1 + jweightFields fs := rfl
      have h2 : (stringifyVal (.obj fs)).length =
          (stringifyFields fs).length + 2 := by
        rw [show stringifyVal (.obj fs) = '{' :: (stringifyFields fs ++ ['}'])
          from rfl]
        simp
      omega

theorem jweightList_le (xs : List JsVal) (hp : jsonPureList xs = true) :
    jweightList xs ≤ (stringifyElems xs).length + 2 := by
  cases xs with
  | nil => decide
  | cons x xs' =>
      have hpx : jsonPure x = true := by
        simp [jsonPureList] at hp; exact hp.1
      have hpx' : jsonPureList xs' = true := by
        simp [jsonPureList] at hp; exact hp.2
      have hx := jweight_le x hpx
      cases xs' with
      | nil =>
          have h1 : jweightList [x] = 1 + max (jweight x) 1 := rfl
          have h2 : stringifyElems [x] = stringifyVal x := rfl
          have := jweight_pos x
          rw [h2]
          omega
      | cons y ys =>
          have hrest := jweightList_le (y :: ys) hpx'
          have h1 : jweightList (x :: y :: ys) =
              1 + max (jweight x) (jweightList (y :: ys)) := rfl
          have h2 : stringifyElems (x :: y :: ys) =
              stringifyVal x ++ ',' :: stringifyElems (y :: ys) := rfl
          have h3 := stringify_length_pos x
          rw [h2]
          simp only [List.length_append, List.length_cons]
          omega

theorem jweightFields_le (fs : List (String × JsVal))
    (hp : jsonPureFields fs = true) :
    jweightFields fs ≤ (stringifyFields fs).length + 2 := by
  cases fs with
  | nil => decide
  | cons kv fs' =>
      obtain ⟨k, v⟩ := kv
      have hpv : jsonPure v = true := by
        simp [jsonPureFields] at hp; exact hp.1
      have hpf : jsonPureFields fs' = true := by
        simp [jsonPureFields] at hp; exact hp.2
      have hv := jweight_le v hpv
      have hrest := jweightFields_le fs' hpf
      have h1 : jweightFields ((k, v) :: fs') =
          1 + max (jweight v) (jweightFields fs') := rfl
      have h2 : stringifyFields ((k, v) :: fs') =
          if isUndef v then stringifyFields fs'
          else if fs'.any (fun p => !isUndef p.2) then
            strLit k ++ ':' :: stringifyVal v ++ ',' :: stringifyFields fs'
          else strLit k ++ ':' :: stringifyVal v ++ stringifyFields fs' := rfl
      rw [h2]
      split_ifs with hu ha
      · -- dropped undefined member (excluded: the value is undefined-free)
        rw [jsonPure_not_undef hpv] at hu
        cases hu
      · simp only [strLit, List.length_append, List.length_cons]
        omega
      · simp only [strLit, List.length_append, List.length_cons]
        omega
end

/-- `JSON.parse ∘ JSON.stringify` is the identity on `undefined`-free
values. -/
theorem jsonParse_jsonStringify (v : JsVal) (hp : jsonPure v = true) :
    jsonParse (jsonStringify v) = some v := by
  have hlen : jweight v ≤ (stringifyVal v).length + 1 := jweight_le v hp
  have hrt := stringify_parseVal v ((stringifyVal v).length + 1) [] hlen hp rfl
  rw [List.append_nil] at hrt
  unfold jsonParse jsonStringify
  have htl : (String.mk (stringifyVal v)).toList = stringifyVal v := rfl
  rw [htl, hrt]

/-! ### `validateMethodName` (`src/validators/base.js`) -/

/-- First colon-separated segment (`methodName.split(':')[0]`). -/
def methodNamespace (s : String) : String :=
  String.mk ((splitSep ':' s.toList).headD [])

/-- `validateMethodName(methodName)`. -/
def validateMethodName (methodName : JsVal) : ValidationResult :=
  match methodName with
  | .str s =>
      let e1 : List String :=
        if s.toList.length > maxMethodName then
          ["Method name exceeds maximum length of 128"]
        else []
      let e2 : List String :=
        if !isMethodNameChars s.toList then
          ["Invalid method name format. Must be namespace:action"]
        else []
      let e3 : List String :=
        if reservedNamespaces.contains (methodNamespace s) then
          ["Namespace \"" ++ methodNamespace s ++ "\" is reserved"]
        else []
      let errors := e1 ++ e2 ++ e3
      ⟨errors.isEmpty, errors⟩
  | _ => ⟨false, ["Method name must be a string"]⟩

/-! ### Per-type validators

Each first runs `validateBaseMessage` and returns its result unchanged when
it is invalid (the source `return baseValidation` short-circuit), then
checks the message type and accumulates the type-specific violations.
Options records carry the source defaults; the `payloadValidator` /
`dataValidator` callbacks are modelled as optional Lean functions. -/

structure RequestValidationOptions where
  validatePayload : Bool := false
  payloadValidator : Option (JsVal → ValidationResult) := none
  allowedMethods : Option (List String) := none
  maxPayloadSize : Nat := maxMessageSize

/-- `DefaultRequestValidationOptions`. -/
def defaultRequestValidationOptions : RequestValidationOptions := {}

/-- `validateRequest(message, options)` (`src/validators/request.js`). -/
def validateRequest (message : JsVal)
    (options : RequestValidationOptions := defaultRequestValidationOptions) :
    Except String ValidationResult := do
  let base ← validateBaseMessage message
  if !base.valid then return base
  if !(message.fieldOr "type").isStr "request" then
    return ⟨false, ["Invalid message type: expected request, got " ++
      jsToString (message.fieldOr "type")]⟩
  let e1 : List String :=
    if !message.hasField "requestId" then ["Missing required field: requestId"]
    else if !(message.fieldOr "requestId").typeofIsString then
      ["requestId must be a string"]
    else if !isUUID (jsToString (message.fieldOr "requestId")) then
      ["requestId must be a valid UUID"]
    else []
  let e2 : List String :=
    if !message.hasField "method" then ["Missing required field: method"]
    else
      (validateMethodName (message.fieldOr "method")).errors ++
      (match options.allowedMethods with
       | some allowed =>
          if !allowed.contains (jsToString (message.fieldOr "method")) then
            ["Method " ++ jsToString (message.fieldOr "method") ++
              " is not allowed"]
          else []
       | none => [])
  let e3 : List String :=
    if message.hasField "payload" then
      (if estimateMessageSize (message.fieldOr "payload") >
          options.maxPayloadSize then
        ["Payload size exceeds maximum allowed size"]
      else []) ++
      (match options.payloadValidator with
       | some pv =>
          if options.validatePayload then
            let r := pv (message.fieldOr "payload")
            if !r.valid then r.errors else []
          else []
       | none => [])
    else []
  let errors := e1 ++ e2 ++ e3
  return ⟨errors.isEmpty, errors⟩

structure ResponseValidationOptions where
  validateData : Bool := false
  dataValidator : Option (JsVal → ValidationResult) := none
  requireRequestId : Bool := true
  maxDataSize : Nat := maxMessageSize

/-- `DefaultResponseValidationOptions`. -/
def defaultResponseValidationOptions : ResponseValidationOptions := {}

/-- `validateErrorObject(error)` (`src/validators/response.js`, private). -/
def validateErrorObject (error : JsVal) : ValidationResult :=
  if !error.truthy || !error.typeofIsObject then
    ⟨false, ["Error must be an object"]⟩
  else
    let e1 : List String :=
      if !(error.fieldOr "code").truthy then
        ["Error must contain non-empty code field"]
      else if !(error.fieldOr "code").typeofIsString then
        ["Error code must be a string"]
      else []
    let e2 : List String :=
      if !(error.fieldOr "message").truthy then
        ["Error must contain non-empty message field"]
      else if !(error.fieldOr "message").typeofIsString then
        ["Error message must be a string"]
      else []
    let e3 : List String :=
      if error.hasField "details" && (error.fieldOr "details").isNull then
        ["Error details cannot be null"]
      else []
    let errors := e1 ++ e2 ++ e3
    ⟨errors.isEmpty, errors⟩

/-- `validateResponse(message, options)` (`src/validators/response.js`). -/
def validateResponse (message : JsVal)
    (options : ResponseValidationOptions := defaultResponseValidationOptions) :
    Except String ValidationResult := do
  let base ← validateBaseMessage message
  if !base.valid then return base
  if !(message.fieldOr "type").isStr "response" then
    return ⟨false, ["Invalid message type: expected response, got " ++
      jsToString (message.fieldOr "type")]⟩
  let e1 : List String :=
    if options.requireRequestId then
      if !message.hasField "requestId" then
        ["Missing required field: requestId"]
      else if !(message.fieldOr "requestId").typeofIsString then
        ["requestId must be a string"]
      else if !isUUID (jsToString (message.fieldOr "requestId")) then
        ["requestId must be a valid UUID"]
      else []
    else []
  let e2 : List String :=
    if !message.hasField "success" then ["Missing required field: success"]
    else if !(message.fieldOr "success").typeofIsBoolean then
      ["success must be a boolean"]
    else []
  let e3 : List String :=
    if (message.fieldOr "success").isTrue then
      (if message.hasField "error" then
        ["Successful response should not contain error field"]
      else []) ++
      (if message.hasField "data" && options.validateData then
        match options.dataValidator with
        | some dv =>
            let r := dv (message.fieldOr "data")
            if !r.valid then r.errors else []
        | none => []
      else [])
    else
      if !(message.fieldOr "error").truthy then
        ["Failed response must contain error field"]
      else
        let r := validateErrorObject (message.fieldOr "error")
        if !r.valid then r.errors else []
  let errors := e1 ++ e2 ++ e3
  return ⟨errors.isEmpty, errors⟩

structure NotificationValidationOptions where
  validateData : Bool := false
  dataValidator : Option (JsVal → ValidationResult) := none
  requireTopic : Bool := false
  allowedTopics : Option (List String) := none
  maxDataSize : Nat := maxMessageSize

/-- `DefaultNotificationValidationOptions`. -/
def defaultNotificationValidationOptions : NotificationValidationOptions := {}

/-- `validateNotification(message, options)`
(`src/validators/notification.js`). -/
def validateNotification (message : JsVal)
    (options : NotificationValidationOptions :=
      defaultNotificationValidationOptions) :
    Except String ValidationResult := do
  let base ← validateBaseMessage message
  if !base.valid then return base
  if !(message.fieldOr "type").isStr "notification" then
    return ⟨false, ["Invalid message type: expected notification, got " ++
      jsToString (message.fieldOr "type")]⟩
  let errors : List String :=
    if !message.hasField "notification" then
      ["Missing required field: notification"]
    else if !(message.fieldOr "notification").truthy ||
        !(message.fieldOr "notification").typeofIsObject then
      ["notification must be an object"]
    else
      let notif := message.fieldOr "notification"
      let eTopic : List String :=
        if options.requireTopic && !(notif.fieldOr "topic").truthy then
          ["notification.topic is required"]
        else if !isUndef (notif.fieldOr "topic") then
          if !(notif.fieldOr "topic").typeofIsString then
            ["notification.topic must be a string"]
          else if !isTopicNameChars (jsToString (notif.fieldOr "topic")).toList
              then ["Invalid topic format"]
          else match options.allowedTopics with
            | some allowed =>
                if !allowed.contains (jsToString (notif.fieldOr "topic")) then
                  ["Topic " ++ jsToString (notif.fieldOr "topic") ++
                    " is not allowed"]
                else []
            | none => []
        else []
      let eData : List String :=
        if !notif.hasField "data" then []
        else if options.validateData then
          match options.dataValidator with
          | some dv =>
              let r := dv (notif.fieldOr "data")
              if !r.valid then r.errors else []
          | none => []
        else []
      let eSize : List String :=
        if options.maxDataSize ≠ 0 &&
            estimateMessageSize (notif.fieldOr "data") >
              options.maxDataSize then
          ["Notification data size exceeds maximum allowed size"]
        else []
      eTopic ++ eData ++ eSize
  return ⟨errors.isEmpty, errors⟩

structure ErrorValidationOptions where
  validateDetails : Bool := false
  detailsValidator : Option (JsVal → ValidationResult) := none
  maxDetailsSize : Nat := maxMessageSize
  allowedCodes : Option (List String) := none

/-- `DefaultErrorValidationOptions`. -/
def defaultErrorValidationOptions : ErrorValidationOptions := {}

/-- `validateErrorMessage(message, options)` (`src/validators/error.js`). -/
def validateErrorMessage (message : JsVal)
    (options : ErrorValidationOptions := defaultErrorValidationOptions) :
    Except String ValidationResult := do
  let base ← validateBaseMessage message
  if !base.valid then return base
  if !(message.fieldOr "type").isStr "error" then
    return ⟨false, ["Invalid message type: expected error, got " ++
      jsToString (message.fieldOr "type")]⟩
  let errors : List String :=
    if !message.hasField "error" then
      ["Missing required field: error"]
    else if !(message.fieldOr "error").truthy ||
        !(message.fieldOr "error").typeofIsObject then
      ["error must be an object"]
    else
      let err := message.fieldOr "error"
      let eCode : List String :=
        if !err.hasField "code" then ["Missing required field: error.code"]
        else if !(err.fieldOr "code").typeofIsString then
          ["error.code must be a string"]
        else if jsToString (err.fieldOr "code") = "" then
          ["error.code cannot be empty"]
        else match options.allowedCodes with
          | some allowed =>
              if !allowed.contains (jsToString (err.fieldOr "code")) then
                ["Invalid error code: " ++ jsToString (err.fieldOr "code")]
              else []
          | none => []
      let eMsg : List String :=
        if !err.hasField "message" then
          ["Missing required field: error.message"]
        else if !(err.fieldOr "message").typeofIsString then
          ["error.message must be a string"]
        else if jsToString (err.fieldOr "message") = "" then
          ["error.message cannot be empty"]
        else if (jsToString (err.fieldOr "message")).toList.length >
            maxErrorMessage then
          ["Error message exceeds maximum length of 1024"]
        else []
      let eDetails : List String :=
        if err.hasField "details" then
          (if (err.fieldOr "details").isNull then
            ["error.details cannot be null"]
          else
            (match options.detailsValidator with
             | some dv =>
                if options.validateDetails then
                  let r := dv (err.fieldOr "details")
                  if !r.valid then r.errors else []
                else []
             | none => [])) ++
          (if options.maxDetailsSize ≠ 0 &&
              estimateMessageSize (err.fieldOr "details") >
                options.maxDetailsSize then
            ["Error details size exceeds maximum allowed size"]
          else [])
        else []
      eCode ++ eMsg ++ eDetails
  return ⟨errors.isEmpty, errors⟩

structure AckValidationOptions where
  requireMessageId : Bool := true

/-- `DefaultAckValidationOptions`. -/
def defaultAckValidationOptions : AckValidationOptions := {}

/-- `validateAck(message, options)` (`src/validators/ack.js`). -/
def validateAck (message : JsVal)
    (options : AckValidationOptions := defaultAckValidationOptions) :
    Except String ValidationResult := do
  let base ← validateBaseMessage message
  if !base.valid then return base
  let e1 : List String :=
    if !(message.fieldOr "type").isStr "ack" then
      ["Invalid message type: must be \"ack\""]
    else []
  let e2 : List String :=
    if options.requireMessageId then
      if !message.hasField "messageId" then
        ["Missing required field: messageId"]
      else if !(message.fieldOr "messageId").typeofIsString then
        ["Message ID must be a string"]
      else if !isUUID (jsToString (message.fieldOr "messageId")) then
        ["Invalid message ID: must be a UUID"]
      else []
    else []
  let errors := e1 ++ e2
  return ⟨errors.isEmpty, errors⟩

/-! ### Formatters (`src/formatters`)

`Date.now()` is passed in as `now`; `crypto.randomUUID()` results are passed
in where a formatter would generate one.  The `options` argument is modelled
by its only consulted members (`peer`, `requestId`). -/

/-- `Protocol.NAME`. -/
def protocolName : String := "helios-starling"

/-- `Protocol.CURRENT_VERSION`. -/
def currentVersion : String := "1.0.0"

/-- `createBaseMessage(options)` (`src/formatters/base.js`): the universal
fields; `peer` is attached only when `options.peer` is truthy. -/
def createBaseMessage (now : Nat) (peer : JsVal := .undef) :
    List (String × JsVal) :=
  [("protocol", .str protocolName),
   ("version", .str currentVersion),
   ("timestamp", .num now)] ++
  (if peer.truthy then [("peer", peer)] else [])

/-- `createSuccessResponse(requestId, data, options)`
(`src/formatters/response.js`): `data` is attached unless it is
`undefined`. -/
def createSuccessResponse (requestId : String) (data : JsVal) (now : Nat)
    (peer : JsVal := .undef) : JsVal :=
  .obj (createBaseMessage now peer ++
    [("type", .str "response"), ("requestId", .str requestId),
     ("success", .bool true)] ++
    (if !isUndef data then [("data", data)] else []))

/-- `createErrorResponse(requestId, code, message, details, options)`
(`src/formatters/response.js`): `details` is attached only when it is
neither `undefined` nor `null`. -/
def createErrorResponse (requestId : String) (code message : String)
    (details : JsVal) (now : Nat) (peer : JsVal := .undef) : JsVal :=
  .obj (createBaseMessage now peer ++
    [("type", .str "response"), ("requestId", .str requestId),
     ("success", .bool false),
     ("error", .obj ([("code", .str code), ("message", .str message)] ++
       (if !isUndef details && !details.isNull then [("details", details)]
        else [])))])

/-- `createNotification(data, topic, options)`
(`src/formatters/notification.js`): note the parameter order — `data`
first, then the optional `topic`; `requestId` is attached when
`options.requestId !== undefined`. -/
def createNotification (data : JsVal) (topic : JsVal := .undef)
    (requestId : JsVal := .undef) (now : Nat := 0) : JsVal :=
  .obj (createBaseMessage now ++
    [("type", .str "notification")] ++
    (if !isUndef requestId then [("requestId", requestId)] else []) ++
    [("notification", .obj
      ((if !isUndef topic then [("topic", topic)] else []) ++
       [("data", data)]))])

/-! ### Protocol resolution (`src/validators/protocol.js`)

`ProtocolResolution` for text frames: the message is `JSON.parse`d; parse
failure classifies the frame as text; a parsed value whose `protocol` field
is exactly `"helios-starling"` is protocol, anything else foreign JSON.
Protocol frames then run `_validateBase` (which defaults an absent `peer` to
`false` in place) and, when that leaves no violations, `_validateType`.
The constructor wraps `_resolveMessage` in `try { … } catch { console.error }`,
so an exception thrown by a per-type validator is swallowed, leaving the
violations collected so far. -/

inductive MessageFormat where
  | binary
  | json
  | text
  | protocol
deriving DecidableEq, Repr

structure ResolutionOptions where
  strict : Bool := true
  allowCustomTypes : Bool := false
  maxMessageSize : Option Nat := none

/-- `DefaultResolutionOptions` (constructor defaults). -/
def defaultResolutionOptions : ResolutionOptions := {}

/-- The final state of a `ProtocolResolution`: detected format, violation
list, the parsed (and possibly peer-normalized) data handed to typed
handlers, and the resolved type. -/
structure Resolution where
  format : MessageFormat
  violations : List String
  parsedData : Option JsVal
  resolvedType : Option String

/-- `_isProtocolMessage(message)`. -/
def isProtocolMessage (v : JsVal) : Bool :=
  (v.fieldOr "protocol").isStr protocolName

/-- `ProtocolResolution._validateBase`: version, timestamp, type and peer
checks of the resolver (note: `isValidTimestamp` requires a strictly
positive integer here), the in-place `peer = false` defaulting, and the
optional size check.  Returns the violations and the updated message. -/
def resolutionValidateBase (m : JsVal) (options : ResolutionOptions) :
    List String × JsVal :=
  let e1 : List String :=
    if !m.hasField "version" then ["Missing required field: version"]
    else if !(m.fieldOr "version").typeofIsString then
      ["Version must be a string"]
    else if !isValidVersion (jsToString (m.fieldOr "version")) then
      ["Version must be in semantic version format (x.y.z)"]
    else []
  let e2 : List String :=
    if !m.hasField "timestamp" then ["Missing required field: timestamp"]
    else if !(match m.fieldOr "timestamp" with
              | .num n => decide (0 < n)
              | _ => false) then ["Invalid timestamp format"]
    else []
  let e3 : List String :=
    if !m.hasField "type" then ["Missing required field: type"]
    else if !messageTypeIsValid (m.fieldOr "type") then
      ["Invalid type: must be one of request, response, notification, error, ack, ping"]
    else []
  let e4 : List String :=
    if m.hasField "peer" then
      if !(m.fieldOr "peer").typeofIsBoolean &&
          !(m.fieldOr "peer").typeofIsObject then
        ["Peer must be a boolean or free object"]
      else []
    else []
  let m' := if m.hasField "peer" then m else m.setField "peer" (.bool false)
  let e5 : List String :=
    match options.maxMessageSize with
    | some ms =>
        if estimateMessageSize m' > ms then
          ["Message size exceeds maximum allowed size"]
        else []
    | none => []
  (e1 ++ e2 ++ e3 ++ e4 ++ e5, m')

/-- `ProtocolResolution._validateType`: dispatch to the per-type validator;
an unknown type is a violation only in strict mode.  A thrown `TypeError`
propagates (the constructor catches it). -/
def resolutionValidateType (m : JsVal) (options : ResolutionOptions) :
    Except String (List String) := do
  if !(m.fieldOr "type").truthy then return []
  let tv : Option ValidationResult ←
    if (m.fieldOr "type").isStr "request" then
      some <$> validateRequest m
    else if (m.fieldOr "type").isStr "response" then
      some <$> validateResponse m
    else if (m.fieldOr "type").isStr "notification" then
      some <$> validateNotification m
    else if (m.fieldOr "type").isStr "error" then
      some <$> validateErrorMessage m
    else if (m.fieldOr "type").isStr "ack" then
      some <$> validateAck m
    else
      pure none
  match tv with
  | none =>
      if options.strict then
        return ["Unsupported message type: " ++ jsToString (m.fieldOr "type")]
      else
        return []
  | some r =>
      if !r.valid then return r.errors else return []

/-- `_resolveMessage` on a frame already classified as protocol: base
validation, then (only when clean) type validation; a throwing type
validator is swallowed by the constructor's `catch`. -/
def resolveProtocol (m : JsVal) (options : ResolutionOptions) : Resolution :=
  let (baseViolations, m') := resolutionValidateBase m options
  if baseViolations.isEmpty then
    match resolutionValidateType m' options with
    | .error _ => ⟨.protocol, [], some m', none⟩
    | .ok tv =>
        if tv.isEmpty then
          ⟨.protocol, [], some m', some (jsToString (m'.fieldOr "type"))⟩
        else ⟨.protocol, tv, some m', none⟩
  else ⟨.protocol, baseViolations, some m', none⟩

/-- `resolve(message, options)` on a text frame: `JSON.parse`, format
classification, then protocol validation. -/
def resolve (message : String)
    (options : ResolutionOptions := defaultResolutionOptions) : Resolution :=
  match jsonParse message with
  | none => ⟨.text, [], none, none⟩
  | some v =>
      if isProtocolMessage v then resolveProtocol v options
      else ⟨.json, [], some v, none⟩

/-- `resolve(message, options)` on an already-parsed object frame (the
`typeof message === 'object'` branch of `_detectFormat`). -/
def resolveObject (message : JsVal)
    (options : ResolutionOptions := defaultResolutionOptions) : Resolution :=
  if isProtocolMessage message then resolveProtocol message options
  else ⟨.json, [], some message, none⟩

/-! ### Topic matcher (`src/utils/notification.js`)

`createTopicMatcher(pattern)` builds the regex
`'^' + pattern.replace(/\*/g, '[^:]+') + '$'` and tests topics against it.
The anchored regex is embedded structurally: each pattern character compiles
to a literal item, each `*` to the character class `[^:]+`; `reMatch` is the
(backtracking) matching relation of that anchored sequence. -/

/-- One item of the compiled regex: a literal character or `[^:]+`. -/
inductive RegexItem where
  | lit (c : Char)
  | plus
deriving DecidableEq

/-- `pattern.replace(/\*/g, '[^:]+')` under the `^…$` anchors. -/
def compilePattern (cs : List Char) : List RegexItem :=
  cs.map (fun c => if c = '*' then .plus else .lit c)

/-- Anchored matching of the compiled regex. -/
def reMatch : List RegexItem → List Char → Bool
  | [], s => s.isEmpty
  | .lit _ :: _, [] => false
  | .lit a :: rest, c :: cs => a == c && reMatch rest cs
  | .plus :: _, [] => false
  | .plus :: rest, c :: cs =>
      !(c == ':') && (reMatch rest cs || reMatch (.plus :: rest) cs)
termination_by _ s => s.length

/-- `NotificationUtils.createTopicMatcher(pattern)(topic)`. -/
def createTopicMatcher (pattern topic : String) : Bool :=
  reMatch (compilePattern pattern.toList) topic.toList

/-- Colon-joined segments (`segs.join(':')`). -/
def joinColon : List (List Char) → List Char
  | [] => []
  | [s] => s
  | s :: rest => s ++ ':' :: joinColon rest

theorem reMatch_lit_append (seg : List Char) (rest : List RegexItem) :
    ∀ cs, reMatch (seg.map .lit ++ rest) cs = true ↔
      ∃ cs', cs = seg ++ cs' ∧ reMatch rest cs' = true := by
  induction seg with
  | nil => intro cs; simp
  | cons a seg' ih =>
      intro cs
      cases cs with
      | nil =>
          simp only [List.map_cons, List.cons_append, reMatch]
          constructor
          · intro h; cases h
          · rintro ⟨cs', h, -⟩; simp at h
      | cons c cs1 =>
          simp only [List.map_cons, List.cons_append, reMatch,
            Bool.and_eq_true, beq_iff_eq]
          rw [ih cs1]
          constructor
          · rintro ⟨rfl, cs', rfl, hm⟩
            exact ⟨cs', rfl, hm⟩
          · rintro ⟨cs', h, hm⟩
            simp only [List.cons_append, List.cons.injEq] at h
            obtain ⟨rfl, rfl⟩ := h
            exact ⟨rfl, cs', rfl, hm⟩

theorem reMatch_plus_end : ∀ cs, reMatch [.plus] cs = true ↔
    cs ≠ [] ∧ ':' ∉ cs := by
  intro cs
  induction cs with
  | nil => simp [reMatch]
  | cons c cs1 ih =>
      simp only [reMatch, Bool.and_eq_true, Bool.or_eq_true,
        Bool.not_eq_true', beq_eq_false_iff_ne, ne_eq]
      rw [ih]
      constructor
      · rintro ⟨hc, h | h⟩
        · simp only [List.isEmpty_iff] at h
          subst h
          simp
          exact fun e => hc (e.symm)
        · refine ⟨by simp, ?_⟩
          simp only [List.mem_cons, not_or]
          exact ⟨fun e => hc e.symm, h.2⟩
      · rintro ⟨-, hmem⟩
        simp only [List.mem_cons, not_or] at hmem
        refine ⟨fun e => hmem.1 e.symm, ?_⟩
        cases cs1 with
        | nil => left; simp [reMatch]
        | cons d cs2 => right; exact ⟨by simp, hmem.2⟩

theorem reMatch_plus_colon (rest : List RegexItem) :
    ∀ cs, reMatch (.plus :: .lit ':' :: rest) cs = true ↔
      ∃ s1 cs', cs = s1 ++ ':' :: cs' ∧ s1 ≠ [] ∧ ':' ∉ s1 ∧
        reMatch rest cs' = true := by
  intro cs
  induction cs with
  | nil =>
      simp only [reMatch]
      constructor
      · intro h; cases h
      · rintro ⟨s1, cs', h, -, -, -⟩
        exact absurd h (by simp)
  | cons c cs1 ih =>
      simp only [reMatch, Bool.and_eq_true, Bool.or_eq_true,
        Bool.not_eq_true', beq_eq_false_iff_ne, ne_eq, Bool.and_eq_true,
        beq_iff_eq]
      rw [ih]
      constructor
      · rintro ⟨hc, h | h⟩
        · -- the class stops here: next must be the colon
          rcases cs1 with _ | ⟨d, cs2⟩
          · simp [reMatch] at h
          · simp only [reMatch, Bool.and_eq_true, beq_iff_eq] at h
            obtain ⟨rfl, hm⟩ := h
            exact ⟨[c], cs2, rfl, by simp, by simpa using fun e => hc e.symm,
              hm⟩
        · obtain ⟨s1, cs', rfl, hne, hnc, hm⟩ := h
          refine ⟨c :: s1, cs', rfl, by simp, ?_, hm⟩
          simp only [List.mem_cons, not_or]
          exact ⟨fun e => hc e.symm, hnc⟩
      · rintro ⟨s1, cs', heq, hne, hnc, hm⟩
        rcases s1 with _ | ⟨a, s1'⟩
        · exact absurd rfl hne
        simp only [List.cons_append, List.cons.injEq] at heq
        obtain ⟨rfl, heq'⟩ := heq
        simp only [List.mem_cons, not_or] at hnc
        refine ⟨fun e => hnc.1 e.symm, ?_⟩
        rcases s1' with _ | ⟨b, s1''⟩
        · -- the class consumed exactly one character
          left
          simp only [List.nil_append] at heq'
          subst heq'
          simp [reMatch, hm]
        · right
          exact ⟨b :: s1'', cs', by simpa using heq', by simp, hnc.2, hm⟩

theorem colon_split_unique : ∀ (a b x y : List Char), ':' ∉ a → ':' ∉ b →
    a ++ ':' :: x = b ++ ':' :: y → a = b ∧ x = y := by
  intro a
  induction a with
  | nil =>
      intro b x y _ hb h
      cases b with
      | nil => simpa using h
      | cons d b' =>
          simp only [List.nil_append, List.cons_append, List.cons.injEq] at h
          obtain ⟨rfl, -⟩ := h
          simp at hb
  | cons c a' ih =>
      intro b x y ha hb h
      cases b with
      | nil =>
          simp only [List.cons_append, List.nil_append, List.cons.injEq] at h
          obtain ⟨rfl, -⟩ := h
          simp at ha
      | cons d b' =>
          simp only [List.cons_append, List.cons.injEq] at h
          obtain ⟨rfl, h'⟩ := h
          simp only [List.mem_cons, not_or] at ha hb
          obtain ⟨ha', hx⟩ := ih b' x y ha.2 hb.2 h'
          exact ⟨by rw [ha'], hx⟩

theorem colon_mem_joinColon (t0 : List Char) (t1 : List Char)
    (ts : List (List Char)) : ':' ∈ joinColon (t0 :: t1 :: ts) := by
  rw [show joinColon (t0 :: t1 :: ts) = t0 ++ ':' :: joinColon (t1 :: ts)
    from rfl]
  simp

/-- The specification-side matching of pattern segments against topic
segments: same count, `*` segments match any segment, literal segments match
only themselves. -/
def segsMatch : List (List Char) → List (List Char) → Prop
  | [], [] => True
  | [], _ :: _ => False
  | _ :: _, [] => False
  | p :: ps, t :: ts => (p = ['*'] ∨ t = p) ∧ segsMatch ps ts

theorem star_not_word : isWordChar '*' = false := by decide

theorem colon_not_word : isWordChar ':' = false := by decide

theorem literal_compile {p : List Char} (hpw : ∀ c ∈ p, isWordChar c = true) :
    compilePattern p = p.map .lit := by
  unfold compilePattern
  apply List.map_congr_left
  intro c hc
  have hw : isWordChar c = true := hpw c hc
  have : ¬(c = '*') := by
    intro e; subst e; rw [star_not_word] at hw; cases hw
  simp [this]

theorem literal_no_colon {p : List Char} (hpw : ∀ c ∈ p, isWordChar c = true) :
    ':' ∉ p := by
  intro hc
  have := hpw ':' hc
  rw [colon_not_word] at this
  cases this

theorem reMatch_joinColon (ps : List (List Char)) : ∀ ts : List (List Char),
    (∀ s ∈ ps, s = ['*'] ∨ (s ≠ [] ∧ ∀ c ∈ s, isWordChar c = true)) →
    (∀ s ∈ ts, s ≠ [] ∧ ':' ∉ s) →
    (reMatch (compilePattern (joinColon ps)) (joinColon ts) = true ↔
      segsMatch ps ts) := by
  induction ps with
  | nil =>
      intro ts _ hts
      rw [show compilePattern (joinColon []) = [] from rfl]
      simp only [reMatch, List.isEmpty_iff]
      cases ts with
      | nil => simp [joinColon, segsMatch]
      | cons t0 ts' =>
          simp only [show segsMatch [] (t0 :: ts') = False from rfl,
            iff_false]
          cases ts' with
          | nil =>
              rw [show joinColon [t0] = t0 from rfl]
              exact (hts t0 (by simp)).1
          | cons t1 ts'' =>
              rw [show joinColon (t0 :: t1 :: ts'') =
                t0 ++ ':' :: joinColon (t1 :: ts'') from rfl]
              simp
  | cons p ps' ih =>
      intro ts hps hts
      have hp := hps p (by simp)
      have hps' : ∀ s ∈ ps', s = ['*'] ∨
          (s ≠ [] ∧ ∀ c ∈ s, isWordChar c = true) :=
        fun s hs => hps s (by simp [hs])
      cases ps' with
      | nil =>
          rw [show joinColon [p] = p from rfl]
          rcases hp with hp | ⟨hpne, hpw⟩
          · -- single `*` segment
            subst hp
            rw [show compilePattern ['*'] = [.plus] from rfl,
              reMatch_plus_end]
            cases ts with
            | nil =>
                rw [show joinColon [] = [] from rfl]
                simp [segsMatch]
            | cons t0 ts' =>
                cases ts' with
                | nil =>
                    rw [show joinColon [t0] = t0 from rfl]
                    have h0 := hts t0 (by simp)
                    simp only [show segsMatch [['*']] [t0] =
                      ((['*'] = ['*'] ∨ t0 = ['*']) ∧ True) from rfl]
                    simp [h0.1, h0.2]
                | cons t1 ts'' =>
                    simp only [show segsMatch [['*']] (t0 :: t1 :: ts'') =
                      ((['*'] = ['*'] ∨ t0 = ['*']) ∧
                        segsMatch [] (t1 :: ts'')) from rfl,
                      show segsMatch [] (t1 :: ts'') = False from rfl,
                      and_false, iff_false]
                    rintro ⟨-, hnc⟩
                    exact hnc (colon_mem_joinColon t0 t1 ts'')
          · -- single literal segment
            rw [literal_compile hpw]
            have hlit := reMatch_lit_append p [] (joinColon ts)
            rw [List.append_nil] at hlit
            rw [hlit]
            cases ts with
            | nil =>
                rw [show joinColon [] = [] from rfl]
                simp only [show segsMatch [p] [] = False from rfl, iff_false]
                rintro ⟨cs', he, hm⟩
                simp only [reMatch, List.isEmpty_iff] at hm
                subst hm
                rw [List.append_nil] at he
                exact hpne he.symm
            | cons t0 ts' =>
                cases ts' with
                | nil =>
                    rw [show joinColon [t0] = t0 from rfl]
                    simp only [show segsMatch [p] [t0] =
                      ((p = ['*'] ∨ t0 = p) ∧ True) from rfl, and_true]
                    constructor
                    · rintro ⟨cs', he, hm⟩
                      simp only [reMatch, List.isEmpty_iff] at hm
                      subst hm
                      rw [List.append_nil] at he
                      exact Or.inr he
                    · rintro (h | h)
                      · have h8 : isWordChar '*' = true :=
                          hpw '*' (by rw [h]; simp)
                        rw [star_not_word] at h8; cases h8
                      · exact ⟨[], by simp [h], by simp [reMatch]⟩
                | cons t1 ts'' =>
                    rw [show joinColon (t0 :: t1 :: ts'') =
                      t0 ++ ':' :: joinColon (t1 :: ts'') from rfl]
                    simp only [show segsMatch [p] (t0 :: t1 :: ts'') =
                      ((p = ['*'] ∨ t0 = p) ∧ segsMatch [] (t1 :: ts''))
                        from rfl,
                      show segsMatch [] (t1 :: ts'') = False from rfl,
                      and_false, iff_false]
                    rintro ⟨cs', he, hm⟩
                    simp only [reMatch, List.isEmpty_iff] at hm
                    subst hm
                    rw [List.append_nil] at he
                    have : (':' : Char) ∈ p := by rw [← he]; simp
                    exact absurd (hpw ':' this) (by simp [colon_not_word])
      | cons q ps'' =>
          have hjp : joinColon (p :: q :: ps'') =
              p ++ ':' :: joinColon (q :: ps'') := rfl
          rw [hjp]
          have ihq := ih
          rcases hp with hp | ⟨hpne, hpw⟩
          · -- `*` segment followed by more
            subst hp
            have hcomp : compilePattern
                (['*'] ++ ':' :: joinColon (q :: ps'')) =
                .plus :: .lit ':' :: compilePattern (joinColon (q :: ps'')) := by
              simp [compilePattern]
            rw [hcomp, reMatch_plus_colon]
            cases ts with
            | nil =>
                rw [show joinColon [] = [] from rfl]
                simp only [show segsMatch (['*'] :: q :: ps'') [] = False
                  from rfl, iff_false]
                rintro ⟨s1, cs', he, -, -, -⟩
                exact absurd he.symm (by simp)
            | cons t0 ts' =>
                cases ts' with
                | nil =>
                    rw [show joinColon [t0] = t0 from rfl]
                    simp only [show segsMatch (['*'] :: q :: ps'') [t0] =
                      ((['*'] = ['*'] ∨ t0 = ['*']) ∧
                        segsMatch (q :: ps'') []) from rfl,
                      show segsMatch (q :: ps'') [] = False from rfl,
                      and_false, iff_false]
                    rintro ⟨s1, cs', he, -, hs1nc, -⟩
                    have h0 := hts t0 (by simp)
                    rw [he] at h0
                    exact absurd (by simp : (':' : Char) ∈ s1 ++ ':' :: cs')
                      h0.2
                | cons t1 ts'' =>
                    rw [show joinColon (t0 :: t1 :: ts'') =
                      t0 ++ ':' :: joinColon (t1 :: ts'') from rfl]
                    have hts' : ∀ s ∈ t1 :: ts'', s ≠ [] ∧ ':' ∉ s :=
                      fun s hs => hts s (by simp [hs])
                    simp only [show segsMatch (['*'] :: q :: ps'')
                        (t0 :: t1 :: ts'') =
                      ((['*'] = ['*'] ∨ t0 = ['*']) ∧
                        segsMatch (q :: ps'') (t1 :: ts'')) from rfl]
                    constructor
                    · rintro ⟨s1, cs', he, hs1ne, hs1nc, hm⟩
                      obtain ⟨rfl, rfl⟩ := colon_split_unique t0 s1 _ _
                        (hts t0 (by simp)).2 hs1nc he
                      refine ⟨by simp, ?_⟩
                      rw [← ihq (t1 :: ts'') hps' hts']
                      exact hm
                    · rintro ⟨-, hm⟩
                      refine ⟨t0, joinColon (t1 :: ts''), rfl,
                        (hts t0 (by simp)).1, (hts t0 (by simp)).2, ?_⟩
                      rw [ihq (t1 :: ts'') hps' hts']
                      exact hm
          · -- literal segment followed by more
            have hcomp : compilePattern (p ++ ':' :: joinColon (q :: ps'')) =
                (p ++ [':']).map .lit ++
                  compilePattern (joinColon (q :: ps'')) := by
              have h1 : compilePattern p = p.map .lit := literal_compile hpw
              unfold compilePattern at h1 ⊢
              rw [List.map_append, h1]
              simp
            rw [hcomp, reMatch_lit_append]
            cases ts with
            | nil =>
                rw [show joinColon [] = [] from rfl]
                simp only [show segsMatch (p :: q :: ps'') [] = False
                  from rfl, iff_false]
                rintro ⟨cs', he, -⟩
                have : p ++ [':'] ++ cs' = [] := he.symm
                simp at this
            | cons t0 ts' =>
                cases ts' with
                | nil =>
                    rw [show joinColon [t0] = t0 from rfl]
                    simp only [show segsMatch (p :: q :: ps'') [t0] =
                      ((p = ['*'] ∨ t0 = p) ∧ segsMatch (q :: ps'') [])
                        from rfl,
                      show segsMatch (q :: ps'') [] = False from rfl,
                      and_false, iff_false]
                    rintro ⟨cs', he, -⟩
                    have h0 := hts t0 (by simp)
                    rw [he] at h0
                    exact absurd (by simp : (':' : Char) ∈ p ++ [':'] ++ cs')
                      h0.2
                | cons t1 ts'' =>
                    rw [show joinColon (t0 :: t1 :: ts'') =
                      t0 ++ ':' :: joinColon (t1 :: ts'') from rfl]
                    have hts' : ∀ s ∈ t1 :: ts'', s ≠ [] ∧ ':' ∉ s :=
                      fun s hs => hts s (by simp [hs])
                    simp only [show segsMatch (p :: q :: ps'')
                        (t0 :: t1 :: ts'') =
                      ((p = ['*'] ∨ t0 = p) ∧
                        segsMatch (q :: ps'') (t1 :: ts'')) from rfl]
                    constructor
                    · rintro ⟨cs', he, hm⟩
                      rw [List.append_assoc, List.singleton_append] at he
                      obtain ⟨rfl, rfl⟩ := colon_split_unique t0 p _ _
                        (hts t0 (by simp)).2 (literal_no_colon hpw) he
                      refine ⟨Or.inr rfl, ?_⟩
                      rw [← ihq (t1 :: ts'') hps' hts']
                      exact hm
                    · rintro ⟨hcond, hm⟩
                      have ht0 : t0 = p := by
                        rcases hcond with h | h
                        · have h8 : isWordChar '*' = true :=
                            hpw '*' (by rw [h]; simp)
                          rw [star_not_word] at h8; cases h8
                        · exact h
                      subst ht0
                      refine ⟨joinColon (t1 :: ts''), by simp, ?_⟩
                      rw [ihq (t1 :: ts'') hps' hts']
                      exact hm

theorem segsMatch_iff_pointwise (ps : List (List Char)) :
    ∀ ts : List (List Char), segsMatch ps ts ↔
      (ts.length = ps.length ∧
       ∀ i, ∀ h1 : i < ps.length, ∀ h2 : i < ts.length,
         ps.get ⟨i, h1⟩ ≠ ['*'] → ts.get ⟨i, h2⟩ = ps.get ⟨i, h1⟩) := by
  induction ps with
  | nil =>
      intro ts
      cases ts with
      | nil => simp [segsMatch]
      | cons t ts' => simp [show segsMatch [] (t :: ts') = False from rfl]
  | cons p ps' ih =>
      intro ts
      cases ts with
      | nil =>
          simp [show segsMatch (p :: ps') [] = False from rfl]
      | cons t ts' =>
          rw [show segsMatch (p :: ps') (t :: ts') =
            ((p = ['*'] ∨ t = p) ∧ segsMatch ps' ts') from rfl]
          rw [ih ts']
          constructor
          · rintro ⟨hcond, hlen, hrest⟩
            refine ⟨by simpa using hlen, ?_⟩
            intro i h1 h2 hne
            cases i with
            | zero =>
                simp only [List.get] at hne ⊢
                rcases hcond with h | h
                · exact absurd h hne
                · exact h
            | succ j =>
                simp only [List.get] at hne ⊢
                exact hrest j (by simpa using h1) (by simpa using h2) hne
          · rintro ⟨hlen, hall⟩
            refine ⟨?_, by simpa using hlen, ?_⟩
            · by_cases hstar : p = ['*']
              · exact Or.inl hstar
              · exact Or.inr (hall 0 (by simp) (by simp) hstar)
            · intro j hj1 hj2 hne
              exact hall (j + 1) (by simpa using hj1) (by simpa using hj2) hne

/-! ### Request state machine (`src/core/request.js`)

The mutable state a `Request` carries through deliveries (`_state`,
`_result`, `_error`), and each delivery method as a transition returning
the new state together with the list of listener dispatches performed by
`_emit` (in order).  Listener sets receive exactly the events of their
name; dispatching an event models invoking every listener of that set. -/

inductive RequestState where
  | pending
  | fulfilled
  | rejected
deriving DecidableEq

/-- The notification context handed to `Request.handleNotification`
(`NotificationContext` of `src/core/context.js`): it exposes `topic`,
`data`, `type` and `requestId`, read from the object passed to its
constructor. -/
structure NotificationContext where
  topic : JsVal
  data : JsVal
  type : JsVal
  requestId : JsVal

/-- `new NotificationContext(starling, {topic, data}, {...requestId})` as
built in `handleMessage`'s `onNotification` (`src/handlers/message.js`):
only `topic` and `data` are copied into the constructor argument, so the
context's `type` reads a field that is never present. -/
def notificationContextOfMessage (m : JsVal) : NotificationContext :=
  let notifArg : JsVal := .obj
    [("topic", (m.fieldOr "notification").fieldOr "topic"),
     ("data", (m.fieldOr "notification").fieldOr "data")]
  { topic := notifArg.fieldOr "topic"
    data := notifArg.fieldOr "data"
    type := notifArg.fieldOr "type"
    requestId := m.fieldOr "requestId" }

/-- One listener dispatch performed by `Request._emit`. -/
inductive RequestEmit where
  | notification (context : NotificationContext)
  | progress (data : JsVal)
  | success (data : JsVal)
  | error (e : JsVal)
  | complete
  | timeout

structure Request where
  state : RequestState
  result : JsVal
  error : JsVal

/-- The state of a freshly constructed request (`_state = 'pending'`,
`_result = null`, `_error = null`). -/
def Request.initial : Request := ⟨.pending, .null, .null⟩

/-- `Request.handleNotification(notification)`: dispatches to the progress
or notification listeners according to `notification.type`; the state is
never consulted or changed. -/
def Request.handleNotification (r : Request) (n : NotificationContext) :
    Request × List RequestEmit :=
  if n.type.isStr "progress" then (r, [.progress n.data])
  else (r, [.notification n])

/-- `Request.handleResponse(response)`. -/
def Request.handleResponse (r : Request) (response : JsVal) :
    Request × List RequestEmit :=
  if !(decide (r.state = .pending)) then (r, [])
  else
    ({ state := .fulfilled, result := response.fieldOr "data",
       error := r.error },
     [.success (response.fieldOr "data"), .complete])

/-- `Request._handleError(error)` (private; also the body of the timeout
branch). -/
def Request.handleErrorPriv (r : Request) (e : JsVal) :
    Request × List RequestEmit :=
  ({ state := .rejected, result := r.result, error := e },
   [.error e, .complete])

/-- `Request.handleError(error)`. -/
def Request.handleError (r : Request) (e : JsVal) :
    Request × List RequestEmit :=
  if !(decide (r.state = .pending)) then (r, [])
  else r.handleErrorPriv e

/-- `Request.cancel(reason)`. -/
def Request.cancel (r : Request) (reason : String) :
    Request × List RequestEmit :=
  if !(decide (r.state = .pending)) then (r, [])
  else r.handleErrorPriv (.obj
    [("code", .str "REQUEST_CANCELLED"), ("message", .str reason)])

/-! ### Retry helper (`src/utils/retry.js`) and queue retry delay
(`src/core/queue.js`)

Delay arithmetic over ℚ; `Math.random()` is the parameter
`rand ∈ [0, 1)`. -/

/-- `calculateBackoffDelay(attempt, {baseDelay, maxDelay, jitter})`. -/
def calculateBackoffDelay (attempt : Nat) (baseDelay maxDelay jitter : ℚ)
    (rand : ℚ) : ℚ :=
  let exponentialDelay := min (baseDelay * 2 ^ attempt) maxDelay
  let jitterMs := exponentialDelay * jitter
  let randomJitter := rand * jitterMs * 2 - jitterMs
  max 0 (exponentialDelay + randomJitter)

/-- `withRetry`'s default configuration (`maxRetries: 3, baseDelay: 100,
maxDelay: 5000, jitter: 0.1`); the queue invokes `withRetry` with
`{maxRetries, retryDelay, onRetry}`, so `baseDelay`, `maxDelay` and
`jitter` keep these defaults (`retryDelay` is not a recognized option). -/
def withRetryDefaultBaseDelay : ℚ := 100
def withRetryDefaultMaxDelay : ℚ := 5000
def withRetryDefaultJitter : ℚ := 1 / 10

/-- `RequestQueue._getRetryDelay(retryCount)`: exponential backoff capped
at 30 seconds, without jitter. -/
def getRetryDelay (baseDelay : ℚ) (retryCount : Nat) : ℚ :=
  min (baseDelay * 2 ^ retryCount) 30000

/-! ### Queue admission (`src/core/queue.js`) -/

inductive OnFull where
  | block
  | drop
  | errorPolicy
deriving DecidableEq

structure QueueOptions where
  maxSize : Nat := 1000
  maxRetries : Nat := 3
  baseDelay : ℚ := 1000
  maxConcurrent : Nat := 10
  priorityQueuing : Bool := false
  onFull : OnFull := .block
  drainTimeout : Nat := 30000

/-- One queue entry: `{request, retryCount, addedAt, priority}` keyed by the
request id (`this._queue` is a `Map`, iterated in insertion order). -/
structure QueueEntry where
  requestId : String
  retryCount : Nat
  addedAt : Nat
  priority : Int

/-- Outcome of one `RequestQueue.add` call. -/
inductive AddOutcome where
  | returned (value : Bool) (queue : List QueueEntry)
  | thrown (message : String) (queue : List QueueEntry)
  | blocked

/-- `RequestQueue.add(request)`: capacity check against `maxSize`, then the
`onFull` policy (`drop` returns `false` without touching the queue; `error`
throws; `block` suspends awaiting space); otherwise the entry is appended
(`Map.set` with a fresh id preserves insertion order). -/
def queueAdd (opts : QueueOptions) (queue : List QueueEntry)
    (entry : QueueEntry) : AddOutcome :=
  if queue.length ≥ opts.maxSize then
    match opts.onFull with
    | .drop => .returned false queue
    | .errorPolicy => .thrown "Queue is full" queue
    | .block => .blocked
  else .returned true (queue ++ [entry])

/-! ### The progress-notification chain (`src/core/context.js`,
`src/core/starling.js`, `src/formatters/notification.js`)

`RequestContext.notify(topic, data)` forwards to
`starling.notify(topic, data, requestId)`, which calls
`createNotification(topic, data, {requestId})` — positionally, so the
first argument lands in `createNotification`'s `data` parameter and the
second in `topic`.  `RequestContext.progress(...)` in turn calls
`this.notify(dataObject, topicString)` — its arguments already swapped
relative to `notify`'s signature — so the two swaps cancel on the wire. -/

/-- `BaseStarling.notify(topic, data, requestId)`
(`send(createNotification(topic, data, { requestId }))`); the produced
wire message. -/
def starlingNotify (topic data : JsVal) (requestId : JsVal) (now : Nat) :
    JsVal :=
  createNotification topic data requestId now

/-- `RequestContext.notify(topic, data)`: throws when the context is
processed, otherwise sends via `starling.notify` with this context's
request id. -/
def contextNotify (processed : Bool) (requestId : String)
    (topic data : JsVal) (now : Nat) : Except String JsVal :=
  if processed then .error "Request already processed"
  else .ok (starlingNotify topic data (.str requestId) now)

/-- `RequestContext.progress(progress, status, details)`: builds the data
object (with the clamped percentage) and calls
`this.notify(dataObject, topicString)`. -/
def contextProgress (processed : Bool) (requestId : String)
    (progress : Int) (status details : JsVal) (now : Nat) :
    Except String JsVal :=
  contextNotify processed requestId
    (.obj ([("type", .str "progress"),
            ("progress", .num (min 100 (max 0 progress)))] ++
      (if status.truthy then [("status", status)] else []) ++
      (if details.truthy then [("details", details)] else [])))
    (.str (requestId ++ ":progress"))
    now

/-! ### `RequestsManager.execute` cleanup registration
(`src/managers/requests.js`) -/

/-- The member names defined on a `Request` instance by
`src/core/request.js` (constructor fields, methods and getters). -/
def requestInstanceMembers : List String :=
  ["_starling", "_method", "_payload", "_options", "id", "timestamp",
   "_timeout", "_promise", "_resolve", "_reject", "_state", "_result",
   "_error", "_listeners", "onNotification", "onProgress", "onSuccess",
   "onError", "onComplete", "onTimeout", "execute", "handleNotification",
   "handleResponse", "handleError", "cancel", "_handleError",
   "_startTimeout", "_clearTimeout", "_emit", "state", "isPending",
   "result", "error"]

/-- `RequestsManager.execute`: after creating the request and adding it to
the active table, it registers the final-cleanup hook with
`request.finally(() => { … })`.  Property lookup of a name that the class
does not define yields `undefined`, and calling it throws a `TypeError`. -/
def requestsManagerExecute (activeRequests : List String)
    (requestId : String) : Except String (List String) :=
  let active' := activeRequests ++ [requestId]
  if requestInstanceMembers.contains "finally" then .ok active'
  else .error "TypeError: request.finally is not a function"

/-! ## Claims -/

/-- **C1.**  The claim states that `validateBaseMessage` rejects every
`type` outside the six message types and always returns a
`{ valid, errors[] }` result rather than throwing.  The code does neither:
its `validTypes` is the *string* `values().join(', ')`, so the membership
test is a substring test (the envelope with `type = "res"` is accepted as
valid), and on a non-substring type (`"bogus"`) the failure branch calls
`.join` on that string, which throws a `TypeError`. -/
theorem c1_validateBaseMessage_type_check_broken :
    validateBaseMessage (.obj [("protocol", .str "helios-starling"),
      ("version", .str "1.0.0"), ("timestamp", .num 1),
      ("type", .str "bogus")]) =
      .error "TypeError: validTypes.join is not a function" ∧
    validateBaseMessage (.obj [("protocol", .str "helios-starling"),
      ("version", .str "1.0.0"), ("timestamp", .num 1),
      ("type", .str "res")]) = .ok ⟨true, []⟩ :=
  ⟨rfl, rfl⟩

/-- **C3 (counterexample).**  The claim states that once a request is
terminal, a subsequent `handleNotification` delivery invokes none of its
listeners.  But `Request.handleNotification` has no state guard: on a
request already fulfilled by `handleResponse`, a progress notification
still dispatches to the progress listeners. -/
theorem c3_terminal_notification_still_dispatches :
    ((Request.initial.handleResponse
        (.obj [("data", .str "ok")])).1.state = .fulfilled) ∧
    (((Request.initial.handleResponse
        (.obj [("data", .str "ok")])).1.handleNotification
        ⟨.undef, .num 42, .str "progress", .undef⟩).2 =
      [.progress (.num 42)]) ∧
    ([RequestEmit.progress (.num 42)] ≠ []) :=
  ⟨rfl, rfl, by simp⟩

/-- **C3 (amended).**  Once a request is fulfilled or rejected, subsequent
`handleResponse`, `handleError` and `cancel` calls are ignored — the
state, result and error are unchanged and no listeners are invoked — and
`handleNotification` never changes the state, result or error (though it
still dispatches to the progress/notification listeners). -/
theorem c3_terminal_sticky_amended (r : Request)
    (h : ¬(r.state = .pending)) :
    (∀ resp, r.handleResponse resp = (r, [])) ∧
    (∀ e, r.handleError e = (r, [])) ∧
    (∀ reason, r.cancel reason = (r, [])) ∧
    (∀ n, (r.handleNotification n).1 = r) := by
    refine ⟨?_, ?_, ?_, ?_⟩
    · intro resp; simp [Request.handleResponse, h]
    · intro e; simp [Request.handleError, h]
    · intro reason; simp [Request.cancel, h]
    · intro n
      unfold Request.handleNotification
      split <;> rfl

theorem c3_terminal_sticky_witness :
    (Request.mk .fulfilled (.str "ok") .null).handleResponse (.obj []) =
      (Request.mk .fulfilled (.str "ok") .null, []) :=
  (c3_terminal_sticky_amended ⟨.fulfilled, .str "ok", .null⟩
    (by decide)).1 (.obj [])

/-- **C4 (counterexample).**  The claim asserts that every delay the retry
helper computes for attempt `k` with base delay `b` and jitter `0.1` lies
in `[min(b·2^k, 30000)·0.9, min(b·2^k, 30000)·1.1]`.  With the helper's
own default options (`baseDelay = 100`, `maxDelay = 5000`, `jitter = 0.1`)
and mid-range randomness, attempt 6 yields 5000 ms — the helper caps at
its `maxDelay` option, not at 30000 — strictly below the claimed lower
bound `5760 = min(100·2⁶, 30000)·0.9`. -/
theorem c4_backoff_interval_counterexample :
    calculateBackoffDelay 6 withRetryDefaultBaseDelay
        withRetryDefaultMaxDelay withRetryDefaultJitter (1/2) = 5000 ∧
    calculateBackoffDelay 6 withRetryDefaultBaseDelay
        withRetryDefaultMaxDelay withRetryDefaultJitter (1/2) <
      min ((100 : ℚ) * 2 ^ 6) 30000 * (1 - 1/10) := by
  constructor <;>
    norm_num [calculateBackoffDelay, withRetryDefaultBaseDelay,
      withRetryDefaultMaxDelay, withRetryDefaultJitter]

/-- **C4 (amended).**  The queue's own `_getRetryDelay` computes exactly
`min(b·2^k, 30000)` (no jitter), which lies inside the claimed interval
and in `[0, 30000]`; the retry helper's delay lies in
`[min(b·2^k, maxDelay)·(1−j), min(b·2^k, maxDelay)·(1+j)]` — the cap is
its `maxDelay` option (default 5000), not 30000. -/
theorem c4_backoff_bounds_amended :
    (∀ b : ℚ, 0 ≤ b → ∀ k : Nat,
      min (b * 2 ^ k) 30000 * (1 - 1/10) ≤ getRetryDelay b k ∧
      getRetryDelay b k ≤ min (b * 2 ^ k) 30000 * (1 + 1/10) ∧
      0 ≤ getRetryDelay b k ∧ getRetryDelay b k ≤ 30000) ∧
    (∀ (b md j r : ℚ) (k : Nat), 0 ≤ b → 0 ≤ md → 0 ≤ j → j ≤ 1 →
      0 ≤ r → r ≤ 1 →
      min (b * 2 ^ k) md * (1 - j) ≤ calculateBackoffDelay k b md j r ∧
      calculateBackoffDelay k b md j r ≤ min (b * 2 ^ k) md * (1 + j)) := by
  constructor
  · intro b hb k
    have hpow : (0 : ℚ) ≤ b * 2 ^ k := by positivity
    have hmin : (0 : ℚ) ≤ min (b * 2 ^ k) 30000 :=
      le_min hpow (by norm_num)
    unfold getRetryDelay
    refine ⟨by nlinarith, by nlinarith, hmin, min_le_right _ _⟩
  · intro b md j r k hb hmd hj hj1 hr hr1
    have hpow : (0 : ℚ) ≤ b * 2 ^ k := by positivity
    have he : (0 : ℚ) ≤ min (b * 2 ^ k) md := le_min hpow hmd
    unfold calculateBackoffDelay
    set e := min (b * 2 ^ k) md with hedef
    have hrej : (0 : ℚ) ≤ r * (e * j) :=
      mul_nonneg hr (mul_nonneg he hj)
    have hejr : (0 : ℚ) ≤ e * j * (1 - r) :=
      mul_nonneg (mul_nonneg he hj) (by linarith)
    have hej1 : (0 : ℚ) ≤ e * (1 - j) :=
      mul_nonneg he (by linarith)
    have hlow : e * (1 - j) ≤ e + (r * (e * j) * 2 - e * j) := by nlinarith
    have hup : e + (r * (e * j) * 2 - e * j) ≤ e * (1 + j) := by nlinarith
    have h0 : (0 : ℚ) ≤ e + (r * (e * j) * 2 - e * j) := by nlinarith
    rw [max_eq_right h0]
    exact ⟨hlow, hup⟩

theorem c4_backoff_bounds_witness :
    (min ((1000 : ℚ) * 2 ^ 3) 30000 * (1 - 1/10) ≤ getRetryDelay 1000 3 ∧
     getRetryDelay 1000 3 ≤ min ((1000 : ℚ) * 2 ^ 3) 30000 * (1 + 1/10) ∧
     0 ≤ getRetryDelay 1000 3 ∧ getRetryDelay 1000 3 ≤ 30000) ∧
    (min ((100 : ℚ) * 2 ^ 2) 5000 * (1 - 1/10) ≤
       calculateBackoffDelay 2 100 5000 (1/10) (1/4) ∧
     calculateBackoffDelay 2 100 5000 (1/10) (1/4) ≤
       min ((100 : ℚ) * 2 ^ 2) 5000 * (1 + 1/10)) :=
  ⟨c4_backoff_bounds_amended.1 1000 (by norm_num) 3,
   c4_backoff_bounds_amended.2 100 5000 (1/10) (1/4) 2 (by norm_num)
     (by norm_num) (by norm_num) (by norm_num) (by norm_num) (by norm_num)⟩

/-- **C5.**  With `maxSize = N` and `onFull = 'drop'`, an `add` call
against a queue already holding `N` entries returns `false` and leaves the
queue unchanged (same size, same entries). -/
theorem c5_queue_drop_at_capacity (opts : QueueOptions)
    (queue : List QueueEntry) (entry : QueueEntry)
    (hfull : queue.length = opts.maxSize) (hdrop : opts.onFull = .drop) :
    queueAdd opts queue entry = .returned false queue := by
  unfold queueAdd
  rw [if_pos (by omega), hdrop]

theorem c5_queue_drop_witness :
    queueAdd { maxSize := 2, onFull := .drop }
      [⟨"a", 0, 0, 0⟩, ⟨"b", 0, 0, 0⟩] ⟨"c", 0, 0, 0⟩ =
      .returned false [⟨"a", 0, 0, 0⟩, ⟨"b", 0, 0, 0⟩] :=
  c5_queue_drop_at_capacity { maxSize := 2, onFull := .drop }
    [⟨"a", 0, 0, 0⟩, ⟨"b", 0, 0, 0⟩] ⟨"c", 0, 0, 0⟩ rfl rfl

/-- **C7.**  The claim states that `RequestsManager.execute` registers a
cleanup hook on the request's terminal signal which moves timed-out ids
into the expired table.  The code registers that hook with
`request.finally(...)`, but the `Request` class of `src/core/request.js`
defines no `finally` member (nor `then`/`catch` — it is not a thenable),
so `execute` throws a `TypeError` after inserting the id into the active
table, and no cleanup hook is ever registered. -/
theorem c7_execute_cleanup_hook_throws (activeRequests : List String)
    (requestId : String) :
    requestsManagerExecute activeRequests requestId =
      .error "TypeError: request.finally is not a function" ∧
    requestInstanceMembers.contains "finally" = false :=
  ⟨rfl, rfl⟩

/-- **C6.**  The claim states that `context.progress(pct)` sends a
progress notification the requester observes through `onProgress`.  On the
wire the message is indeed well-formed — the two argument swaps
(`progress` → `notify` and `notify` → `createNotification`) cancel, so the
topic is `<requestId>:progress` and the payload carries
`type: "progress"` — but the receiving handler constructs the
`NotificationContext` from `{topic, data}` only, so `context.type` is
`undefined` and `Request.handleNotification` dispatches every such message
to the `notification` listeners, never to the `progress` listeners:
`onProgress` callbacks are not invoked. -/
theorem c6_progress_notification_misrouted (requestId : String) (pct : Int)
    (now : Nat) (r : Request) :
    ∃ m, contextProgress false requestId pct .undef .undef now = .ok m ∧
      (m.fieldOr "notification").fieldOr "topic" =
        .str (requestId ++ ":progress") ∧
      ((m.fieldOr "notification").fieldOr "data").fieldOr "type" =
        .str "progress" ∧
      ((m.fieldOr "notification").fieldOr "data").fieldOr "progress" =
        .num (min 100 (max 0 pct)) ∧
      m.fieldOr "requestId" = .str requestId ∧
      (notificationContextOfMessage m).type = .undef ∧
      (r.handleNotification (notificationContextOfMessage m)).2 =
        [.notification (notificationContextOfMessage m)] :=
  ⟨_, rfl, rfl, rfl, rfl, rfl, rfl, rfl⟩

/-- **C9 (counterexample).**  The claim states that a request whose
envelope has a malformed version *and* is missing `requestId` reports both
errors.  But `validateRequest` returns the base result as soon as the base
check fails, so only the version error is reported. -/
theorem c9_base_failure_short_circuits :
    validateRequest (.obj [("protocol", .str "helios-starling"),
      ("version", .str "1.0"), ("timestamp", .num 1),
      ("type", .str "request"), ("method", .str "users:getProfile")]) =
      .ok ⟨false, ["Version must be in semantic version format (x.y.z)"]⟩ ∧
    (JsVal.obj [("protocol", .str "helios-starling"),
      ("version", .str "1.0"), ("timestamp", .num 1),
      ("type", .str "request"),
      ("method", .str "users:getProfile")]).hasField "requestId" = false :=
  ⟨rfl, rfl⟩

/-- **C9 (amended).**  When the base validation fails, `validateRequest`
and `validateResponse` return the base result unchanged (base errors
short-circuit; type-specific checks never run).  Within the type-specific
stage alone, errors do accumulate: a request envelope with a valid base
but missing both `requestId` and `method` reports both errors. -/
theorem c9_error_reporting_amended :
    (∀ (m : JsVal) (r : ValidationResult), validateBaseMessage m = .ok r →
      r.valid = false →
      validateRequest m = .ok r ∧ validateResponse m = .ok r) ∧
    validateRequest (.obj [("protocol", .str "helios-starling"),
      ("version", .str "1.0.0"), ("timestamp", .num 1),
      ("type", .str "request")]) =
      .ok ⟨false, ["Missing required field: requestId",
                   "Missing required field: method"]⟩ := by
  constructor
  · intro m r hb hv
    constructor
    · unfold validateRequest
      rw [hb, show (Except.ok r : Except String ValidationResult) = pure r
        from rfl, pure_bind]
      simp [hv]
    · unfold validateResponse
      rw [hb, show (Except.ok r : Except String ValidationResult) = pure r
        from rfl, pure_bind]
      simp [hv]
  · rfl

theorem c9_error_reporting_witness :
    validateRequest (.obj [("protocol", .str "helios-starling"),
      ("version", .str "1.0"), ("timestamp", .num 1),
      ("type", .str "request")]) =
      .ok ⟨false, ["Version must be in semantic version format (x.y.z)"]⟩ :=
  (c9_error_reporting_amended.1
    (.obj [("protocol", .str "helios-starling"),
      ("version", .str "1.0"), ("timestamp", .num 1),
      ("type", .str "request")])
    ⟨false, ["Version must be in semantic version format (x.y.z)"]⟩
    rfl rfl).1

/-- **C2.**  `createTopicMatcher(pattern)` builds
`new RegExp('^' + pattern.replace(/\*/g, '[^:]+') + '$')` and tests the
topic against it.  For a pattern made of colon-separated segments each of
which is either `*` or a non-empty run of word characters, and a topic
made of non-empty colon-free segments, the matcher accepts exactly when
the two have the same number of segments, and every non-`*` pattern
segment equals the topic segment in the same position (a `*` segment
matches any topic segment). -/
theorem c2_createTopicMatcher_segment_semantics
    (ps ts : List (List Char)) (pattern topic : String)
    (hpat : pattern.toList = joinColon ps)
    (htop : topic.toList = joinColon ts)
    (hps : ∀ s ∈ ps, s = ['*'] ∨ (s ≠ [] ∧ ∀ c ∈ s, isWordChar c = true))
    (hts : ∀ s ∈ ts, s ≠ [] ∧ ':' ∉ s) :
    createTopicMatcher pattern topic = true ↔
      (ts.length = ps.length ∧
       ∀ i, ∀ h1 : i < ps.length, ∀ h2 : i < ts.length,
         ps.get ⟨i, h1⟩ ≠ ['*'] → ts.get ⟨i, h2⟩ = ps.get ⟨i, h1⟩) := by
  unfold createTopicMatcher
  rw [hpat, htop, reMatch_joinColon ps ts hps hts,
    segsMatch_iff_pointwise ps ts]

theorem c2_createTopicMatcher_witness :
    createTopicMatcher "user:*" "user:presence" = true ↔
      ([['u', 's', 'e', 'r'],
        ['p', 'r', 'e', 's', 'e', 'n', 'c', 'e']].length =
        [['u', 's', 'e', 'r'], ['*']].length ∧
       ∀ i, ∀ h1 : i < [['u', 's', 'e', 'r'], ['*']].length,
         ∀ h2 : i <
           [['u', 's', 'e', 'r'],
            ['p', 'r', 'e', 's', 'e', 'n', 'c', 'e']].length,
         [['u', 's', 'e', 'r'], ['*']].get ⟨i, h1⟩ ≠ ['*'] →
         [['u', 's', 'e', 'r'],
          ['p', 'r', 'e', 's', 'e', 'n', 'c', 'e']].get ⟨i, h2⟩ =
           [['u', 's', 'e', 'r'], ['*']].get ⟨i, h1⟩) :=
  c2_createTopicMatcher_segment_semantics
    [['u', 's', 'e', 'r'], ['*']]
    [['u', 's', 'e', 'r'], ['p', 'r', 'e', 's', 'e', 'n', 'c', 'e']]
    "user:*" "user:presence" (by decide) (by decide) (by decide) (by decide)

/-- **C8.**  For a well-formed protocol envelope `m` (a pure JSON value
whose `protocol` field is `"helios-starling"`, passing the resolver's base
checks and its per-type validation), `resolve(JSON.stringify(m))`
classifies the frame as format `protocol` with no violations, and the
parsed data is `m` itself — except that when `m` carries no `peer` field,
the resolver has normalized `peer` to `false` in place. -/
theorem c8_resolve_roundtrip (m : JsVal)
    (hpure : jsonPure m = true)
    (hproto : isProtocolMessage m = true)
    (hbase : (resolutionValidateBase m defaultResolutionOptions).1 = [])
    (htype : resolutionValidateType
        (resolutionValidateBase m defaultResolutionOptions).2
        defaultResolutionOptions = .ok []) :
    resolve (jsonStringify m) = ⟨.protocol, [],
      some (resolutionValidateBase m defaultResolutionOptions).2,
      some (jsToString
        ((resolutionValidateBase m defaultResolutionOptions).2.fieldOr
          "type"))⟩ ∧
    (resolutionValidateBase m defaultResolutionOptions).2 =
      (if m.hasField "peer" then m
       else m.setField "peer" (.bool false)) := by
  constructor
  · have hparse := jsonParse_jsonStringify m hpure
    have hq : resolutionValidateBase m defaultResolutionOptions =
        ([], (resolutionValidateBase m defaultResolutionOptions).2) := by
      rw [← hbase]
    unfold resolve
    rw [hparse]
    simp only [hproto, if_true]
    unfold resolveProtocol
    rw [hq]
    simp [htype]
  · rfl

theorem c8_resolve_roundtrip_witness :
    resolve (jsonStringify (.obj [("protocol", .str "helios-starling"),
      ("version", .str "1.0.0"), ("timestamp", .num 1),
      ("type", .str "response"),
      ("requestId", .str "123e4567-e89b-12d3-a456-426614174000"),
      ("success", .bool true)])) =
      ⟨.protocol, [],
       some (.obj [("protocol", .str "helios-starling"),
         ("version", .str "1.0.0"), ("timestamp", .num 1),
         ("type", .str "response"),
         ("requestId", .str "123e4567-e89b-12d3-a456-426614174000"),
         ("success", .bool true), ("peer", .bool false)]),
       some "response"⟩ :=
  (c8_resolve_roundtrip (.obj [("protocol", .str "helios-starling"),
      ("version", .str "1.0.0"), ("timestamp", .num 1),
      ("type", .str "response"),
      ("requestId", .str "123e4567-e89b-12d3-a456-426614174000"),
      ("success", .bool true)]) rfl rfl rfl rfl).1

/-- JS truthiness of any object value. -/
theorem truthy_obj (l : List (String × JsVal)) :
    JsVal.truthy (.obj l) = true := rfl

/-- JS truthiness of a non-empty string. -/
theorem truthy_str (s : String) (h : ¬s = "") :
    JsVal.truthy (.str s) = true := by
  cases s with
  | mk cs =>
      cases cs with
      | nil => exact absurd rfl h
      | cons c cs => rfl

/-- `bind` on an `ok` value. -/
theorem except_bind_ok {A B : Type} (a : A) (f : A → Except String B) :
    (Except.ok a : Except String A) >>= f = f a := rfl

/-- `pure` into `Except`. -/
theorem except_pure_ok {A : Type} (a : A) :
    (pure a : Except String A) = Except.ok a := rfl

/-- **C10.**  Every envelope produced by `createSuccessResponse` or
`createErrorResponse` with a UUID `requestId` and non-empty `code` and
`message` strings passes `validateResponse`; a success response carries no
`error` field, and an error response omits `error.details` whenever the
supplied details are `null` or `undefined`, so the produced message never
violates the details-must-not-be-null check. -/
theorem c10_formatter_responses_validate (requestId code msg : String)
    (data details : JsVal) (now : Nat)
    (huuid : isUUID requestId = true)
    (hcode : ¬code = "") (hmsg : ¬msg = "") :
    validateResponse (createSuccessResponse requestId data now) =
      .ok ⟨true, []⟩ ∧
    (createSuccessResponse requestId data now).hasField "error" = false ∧
    validateResponse (createErrorResponse requestId code msg details now) =
      .ok ⟨true, []⟩ ∧
    (details.isNull = true ∨ isUndef details = true →
      ((createErrorResponse requestId code msg details now).fieldOr
        "error").hasField "details" = false) := by
  have hnow : decide ((now : Int) < 0) = false := decide_eq_false (by omega)
  have hct := truthy_str code hcode
  have hmt := truthy_str msg hmsg
  refine ⟨?_, ?_, ?_, ?_⟩
  · by_cases hd : isUndef data = true
    · simp [validateResponse, validateBaseMessage, createSuccessResponse,
        createBaseMessage, JsVal.hasField, JsVal.getField, JsVal.getField.go,
        JsVal.fieldOr, JsVal.isStr, JsVal.isTrue, JsVal.isArray,
        JsVal.typeofIsString, JsVal.typeofIsNumber, JsVal.typeofIsBoolean,
        JsVal.typeofIsObject, jsToString, hd, hnow, huuid,
        (show JsVal.truthy .undef = false from rfl),
        (show isValidVersion "1.0.0" = true from rfl),
        (show strIncludes validTypesJoined.data
            ['r', 'e', 's', 'p', 'o', 'n', 's', 'e'] = true from rfl),
        protocolName, currentVersion, defaultResponseValidationOptions,
          except_bind_ok, except_pure_ok]
    · have hd2 : isUndef data = false := by simpa using hd
      simp [validateResponse, validateBaseMessage, createSuccessResponse,
        createBaseMessage, JsVal.hasField, JsVal.getField, JsVal.getField.go,
        JsVal.fieldOr, JsVal.isStr, JsVal.isTrue, JsVal.isArray,
        JsVal.typeofIsString, JsVal.typeofIsNumber, JsVal.typeofIsBoolean,
        JsVal.typeofIsObject, jsToString, hd2, hnow, huuid,
        (show JsVal.truthy .undef = false from rfl),
        (show isValidVersion "1.0.0" = true from rfl),
        (show strIncludes validTypesJoined.data
            ['r', 'e', 's', 'p', 'o', 'n', 's', 'e'] = true from rfl),
        protocolName, currentVersion, defaultResponseValidationOptions,
          except_bind_ok, except_pure_ok]
  · by_cases hd : isUndef data = true
    · simp [createSuccessResponse, createBaseMessage, JsVal.hasField,
        JsVal.getField, JsVal.getField.go, hd,
        (show JsVal.truthy .undef = false from rfl)]
    · have hd2 : isUndef data = false := by simpa using hd
      simp [createSuccessResponse, createBaseMessage, JsVal.hasField,
        JsVal.getField, JsVal.getField.go, hd2,
        (show JsVal.truthy .undef = false from rfl)]
  · by_cases h1 : isUndef details = true
    · simp [validateResponse, validateBaseMessage, createErrorResponse,
        createBaseMessage, validateErrorObject, JsVal.hasField,
        JsVal.getField, JsVal.getField.go, JsVal.fieldOr, JsVal.isStr,
        JsVal.isTrue, JsVal.isArray, JsVal.typeofIsString,
        JsVal.typeofIsNumber, JsVal.typeofIsBoolean, JsVal.typeofIsObject,
        jsToString, h1, hnow, huuid, hct, hmt, truthy_obj,
        (show JsVal.truthy .undef = false from rfl),
        (show isValidVersion "1.0.0" = true from rfl),
        (show strIncludes validTypesJoined.data
            ['r', 'e', 's', 'p', 'o', 'n', 's', 'e'] = true from rfl),
        protocolName, currentVersion, defaultResponseValidationOptions,
          except_bind_ok, except_pure_ok]
    · have h1f : isUndef details = false := by simpa using h1
      by_cases h2 : details.isNull = true
      · simp [validateResponse, validateBaseMessage, createErrorResponse,
          createBaseMessage, validateErrorObject, JsVal.hasField,
          JsVal.getField, JsVal.getField.go, JsVal.fieldOr, JsVal.isStr,
          JsVal.isTrue, JsVal.isArray, JsVal.typeofIsString,
          JsVal.typeofIsNumber, JsVal.typeofIsBoolean, JsVal.typeofIsObject,
          jsToString, h1f, h2, hnow, huuid, hct, hmt, truthy_obj,
          (show JsVal.truthy .undef = false from rfl),
          (show isValidVersion "1.0.0" = true from rfl),
          (show strIncludes validTypesJoined.data
              ['r', 'e', 's', 'p', 'o', 'n', 's', 'e'] = true from rfl),
          protocolName, currentVersion, defaultResponseValidationOptions,
          except_bind_ok, except_pure_ok]
      · have h2f : details.isNull = false := by simpa using h2
        simp [validateResponse, validateBaseMessage, createErrorResponse,
          createBaseMessage, validateErrorObject, JsVal.hasField,
          JsVal.getField, JsVal.getField.go, JsVal.fieldOr, JsVal.isStr,
          JsVal.isTrue, JsVal.isArray, JsVal.typeofIsString,
          JsVal.typeofIsNumber, JsVal.typeofIsBoolean, JsVal.typeofIsObject,
          jsToString, h1f, h2f, hnow, huuid, hct, hmt, truthy_obj,
          (show JsVal.truthy .undef = false from rfl),
          (show isValidVersion "1.0.0" = true from rfl),
          (show strIncludes validTypesJoined.data
              ['r', 'e', 's', 'p', 'o', 'n', 's', 'e'] = true from rfl),
          protocolName, currentVersion, defaultResponseValidationOptions,
          except_bind_ok, except_pure_ok]
  · intro hnd
    rcases hnd with h | h <;>
      simp [createErrorResponse, createBaseMessage, JsVal.hasField,
        JsVal.getField, JsVal.getField.go, JsVal.fieldOr, h,
        (show JsVal.truthy .undef = false from rfl)]

theorem c10_formatter_responses_validate_witness :
    validateResponse (createSuccessResponse
      "123e4567-e89b-12d3-a456-426614174000" (.str "ok") 5) =
      .ok ⟨true, []⟩ ∧
    (createSuccessResponse "123e4567-e89b-12d3-a456-426614174000"
      (.str "ok") 5).hasField "error" = false ∧
    validateResponse (createErrorResponse
      "123e4567-e89b-12d3-a456-426614174000" "INTERNAL_ERROR" "boom"
      .null 5) = .ok ⟨true, []⟩ ∧
    (JsVal.null.isNull = true ∨ isUndef JsVal.null = true →
      ((createErrorResponse "123e4567-e89b-12d3-a456-426614174000"
        "INTERNAL_ERROR" "boom" .null 5).fieldOr "error").hasField
        "details" = false) :=
  c10_formatter_responses_validate "123e4567-e89b-12d3-a456-426614174000"
    "INTERNAL_ERROR" "boom" (.str "ok") .null 5 rfl (by decide) (by decide)
